import Mathlib

/-!
# Nænsomt `script.js`: a shallow embedding and its verified properties

The page script is a set of independent DOM behaviours.  Each one is embedded
here as pure functions over an explicit state that records exactly the DOM
attributes the script reads and writes.

* JavaScript strings whose contents matter (field values, the `--nav-h`
  variable) are lists of UTF-16 code units, so that `length`, `trim` and the
  regular expression see what the engine sees.
* Attribute values, class names and messages that only ever come from string
  literals are Lean strings.
* Deferred work (`requestAnimationFrame`, `setTimeout`) is kept in explicit
  queues that separate events drain.
-/

namespace Naensomt

/-! ## JavaScript strings -/

/-- A UTF-16 code unit. -/
abbrev CodeUnit := Nat

/-- A JavaScript string: its sequence of UTF-16 code units. -/
abbrev JSString := List CodeUnit

/-- The code units of a literal whose characters all lie in the basic plane. -/
def js (s : String) : JSString := s.data.map Char.toNat

/-- ECMAScript `WhiteSpace` and `LineTerminator` code points: what `trim`
strips, what `\s` matches and what `parseInt` skips. -/
def isWhiteSpace (c : CodeUnit) : Bool :=
  c == 0x09 || c == 0x0A || c == 0x0B || c == 0x0C || c == 0x0D || c == 0x20 ||
  c == 0xA0 || c == 0x1680 || (0x2000 ≤ c && c ≤ 0x200A) ||
  c == 0x2028 || c == 0x2029 || c == 0x202F || c == 0x205F || c == 0x3000 || c == 0xFEFF

/-- The method `String.prototype.trimStart`. -/
def trimStart (s : JSString) : JSString := s.dropWhile isWhiteSpace

/-- The method `String.prototype.trimEnd`. -/
def trimEnd (s : JSString) : JSString := (s.reverse.dropWhile isWhiteSpace).reverse

/-- The method `String.prototype.trim`. -/
def trim (s : JSString) : JSString := trimEnd (trimStart s)

/-! ## Regular expressions

Only the constructs used by the one pattern of the script are needed: character
classes, concatenation and repetition.  The pattern is anchored at both ends
and has no flags, so `test` is a whole-string match over code units. -/

/-- Regular expressions over code units. -/
inductive Re where
  | never : Re
  | empty : Re
  | cls (p : CodeUnit → Bool) : Re
  | cat (a b : Re) : Re
  | alt (a b : Re) : Re
  | star (a : Re) : Re

namespace Re

/-- Does the expression accept the empty string? -/
def nullable : Re → Bool
  | never => false
  | empty => true
  | cls _ => false
  | cat a b => a.nullable && b.nullable
  | alt a b => a.nullable || b.nullable
  | star _ => true

/-- What remains to be matched after reading the code unit `c`. -/
def step (c : CodeUnit) : Re → Re
  | never => never
  | empty => never
  | cls p => if p c then empty else never
  | cat a b => if a.nullable then alt (cat (a.step c) b) (b.step c) else cat (a.step c) b
  | alt a b => alt (a.step c) (b.step c)
  | star a => cat (a.step c) (star a)

/-- The method `RegExp.prototype.test` for a pattern of the form `^r$`. -/
def test (r : Re) (s : JSString) : Bool := (s.foldl (fun q c => q.step c) r).nullable

/-- The quantifier `r+`. -/
def plus (r : Re) : Re := cat r (star r)

/-- The quantifier `r{2,}`. -/
def atLeastTwo (r : Re) : Re := cat r (cat r (star r))

/-- A single literal code unit. -/
def lit (c : CodeUnit) : Re := cls (fun x => x == c)

/-- The language of an expression, as a relation. -/
inductive Matches : Re → JSString → Prop
  | empty : Matches Re.empty []
  | cls {p : CodeUnit → Bool} {c : CodeUnit} : p c = true → Matches (Re.cls p) [c]
  | cat {a b : Re} {u v : JSString} : Matches a u → Matches b v → Matches (Re.cat a b) (u ++ v)
  | altL {a b : Re} {u : JSString} : Matches a u → Matches (Re.alt a b) u
  | altR {a b : Re} {u : JSString} : Matches b u → Matches (Re.alt a b) u
  | starNil {a : Re} : Matches (Re.star a) []
  | starCons {a : Re} {u v : JSString} :
      Matches a u → Matches (Re.star a) v → Matches (Re.star a) (u ++ v)

end Re

/-! ## 6. Contact form: field validation -/

/-- The code unit of `@`. -/
def atSign : CodeUnit := 64

/-- The code unit of `.`. -/
def dot : CodeUnit := 46

/-- The class `[^\s@]`. -/
def notSpaceOrAt (c : CodeUnit) : Bool := !(isWhiteSpace c || c == atSign)

/-- The pattern `/^[^\s@]+@[^\s@]+\.[^\s@]{2,}$/`. -/
def emailRe : Re :=
  Re.cat (Re.plus (Re.cls notSpaceOrAt))
    (Re.cat (Re.lit atSign)
      (Re.cat (Re.plus (Re.cls notSpaceOrAt))
        (Re.cat (Re.lit dot) (Re.atLeastTwo (Re.cls notSpaceOrAt)))))

/-- An `input` or `textarea` of the contact form, with the attributes the
script touches.  `errorText` is the text content of the element
`document.getElementById(field.id + "-error")` that the markup pairs with the
field, and `none` when the document has no such element. -/
structure Field where
  value : JSString
  type : String
  tagName : String
  isInvalid : Bool
  ariaInvalid : Option String
  errorText : Option String
  deriving DecidableEq, Repr

/-- The message for an empty field. -/
def msgRequired : String := "This field is required."

/-- The message for a malformed address. -/
def msgEmail : String := "Please enter a valid email address."

/-- The message for a short text. -/
def msgShort : String := "Please write at least 10 characters."

/-- The function `validateField(field)`: an error string, or `""` when the
field is valid.  `rest` is what the function goes on to return once the email
block has not returned. -/
def validateField (field : Field) : String :=
  let val := trim field.value
  if val.isEmpty then msgRequired
  else
    let rest : String :=
      if field.tagName == "TEXTAREA" && decide (val.length < 10) then msgShort else ""
    if field.type == "email" then
      if !(emailRe.test val) then msgEmail else rest
    else rest

/-! ### The shape of an accepted address -/

/-- A string without whitespace and without `@`. -/
def NoSpaceOrAt (s : JSString) : Prop := ∀ c ∈ s, notSpaceOrAt c = true

/-- The final dot-separated segment of a string: what follows its last dot,
and the whole string when it has no dot. -/
def finalSegment (s : JSString) : JSString :=
  (s.reverse.takeWhile (fun c => c != dot)).reverse

/-- The address shape in the words of the specification: local part, `@`,
domain; the local part is non-empty, neither part holds whitespace or a further
`@`, and the final dot-separated segment of the domain has at least two
characters. -/
def SpecEmailShape (v : JSString) : Prop :=
  ∃ l d, v = l ++ atSign :: d ∧ l ≠ [] ∧ NoSpaceOrAt l ∧ NoSpaceOrAt d ∧
    2 ≤ (finalSegment d).length

/-- The address shape the pattern accepts: as `SpecEmailShape`, except that
the domain must hold some dot with at least one character before it and at
least two after it (dots among them allowed). -/
def EmailShape (v : JSString) : Prop :=
  ∃ l d, v = l ++ atSign :: d ∧ l ≠ [] ∧ NoSpaceOrAt l ∧ NoSpaceOrAt d ∧
    ∃ m t, d = m ++ dot :: t ∧ m ≠ [] ∧ 2 ≤ t.length

/-- An `input type="email"` holding the given text, not yet validated. -/
def emailInput (text : String) : Field :=
  { value := js text, type := "email", tagName := "INPUT",
    isInvalid := false, ariaInvalid := none, errorText := none }

/-- A `textarea` holding the given text, not yet validated. -/
def textArea (text : String) : Field :=
  { value := js text, type := "textarea", tagName := "TEXTAREA",
    isInvalid := false, ariaInvalid := none, errorText := none }

/-! ## 3. Mobile navigation -/

/-- The `#navToggle` button: the two attributes the script writes. -/
structure NavToggle where
  ariaExpanded : Option String
  ariaLabel : Option String
  deriving DecidableEq, Repr

/-- The `#navMenu` panel: whether its class list holds `is-open`. -/
structure NavMenu where
  isOpen : Bool
  deriving DecidableEq, Repr

/-- The global flag `mobileMenuOpen` and the two elements looked up by id
(`none` when `document.getElementById` returns `null`). -/
structure NavState where
  mobileMenuOpen : Bool
  toggle : Option NavToggle
  menu : Option NavMenu
  deriving DecidableEq, Repr

/-- The conversion `String(b)` of a boolean. -/
def stringOfBool (b : Bool) : String := if b then "true" else "false"

/-- The function `closeMobileMenu()`. -/
def closeMobileMenu (s : NavState) : NavState :=
  match s.toggle, s.menu with
  | some toggle, some menu =>
    { mobileMenuOpen := false
      toggle := some { toggle with ariaExpanded := some "false", ariaLabel := some "Open menu" }
      menu := some { menu with isOpen := false } }
  | _, _ => s

/-- The click listener of `#navToggle`; `initMobileNav` registers it only when
both elements exist, so without them a click runs no code. -/
def navToggleClick (s : NavState) : NavState :=
  match s.toggle, s.menu with
  | some toggle, some menu =>
    let nowOpen := !s.mobileMenuOpen
    { mobileMenuOpen := nowOpen
      toggle := some { toggle with
        ariaExpanded := some (stringOfBool nowOpen)
        ariaLabel := some (if nowOpen then "Close menu" else "Open menu") }
      menu := some { menu with isOpen := nowOpen } }
  | _, _ => s

/-- The closed navigation: flag down, `aria-expanded="false"`,
`aria-label="Open menu"`, no `is-open` class. -/
def closedNav : NavState :=
  { mobileMenuOpen := false
    toggle := some { ariaExpanded := some "false", ariaLabel := some "Open menu" }
    menu := some { isOpen := false } }

/-! ## 1. Smooth scroll -/

/-- The value of a code unit read as a digit of radix up to 36. -/
def digitValue (c : CodeUnit) : Option Nat :=
  if 48 ≤ c ∧ c ≤ 57 then some (c - 48)
  else if 97 ≤ c ∧ c ≤ 122 then some (c - 97 + 10)
  else if 65 ≤ c ∧ c ≤ 90 then some (c - 65 + 10)
  else none

/-- The values of the longest prefix made of digits of the given radix. -/
def takeDigits (radix : Nat) : JSString → List Nat
  | [] => []
  | c :: rest =>
    match digitValue c with
    | some v => if v < radix then v :: takeDigits radix rest else []
    | none => []

/-- The number written by a list of digit values. -/
def digitsValue (radix : Nat) (ds : List Nat) : Nat := ds.foldl (fun acc v => acc * radix + v) 0

/-- The function `parseInt(s)` with no radix argument; `none` stands for
`NaN`.  The result is the exact integer, where the engine gives the nearest
double. -/
def parseInt (s : JSString) : Option Int :=
  let s1 := trimStart s
  let signed : Bool × JSString :=
    match s1 with
    | 45 :: rest => (true, rest)
    | 43 :: rest => (false, rest)
    | _ => (false, s1)
  let based : Nat × JSString :=
    match signed.2 with
    | 48 :: 120 :: rest => (16, rest)
    | 48 :: 88 :: rest => (16, rest)
    | _ => (10, signed.2)
  let ds := takeDigits based.1 based.2
  if ds.isEmpty then none
  else
    let n : Int := (digitsValue based.1 ds : Nat)
    some (if signed.1 then -n else n)

/-- The expression `x || fallback` for a number `x`: the fallback replaces
`NaN` and zero, the two falsy numbers. -/
def orDefault (x : Option Int) (fallback : Int) : Int :=
  match x with
  | none => fallback
  | some n => if n = 0 then fallback else n

/-- The `navHeight` constant of the click listener, from the text that
`getPropertyValue("--nav-h")` returns (empty when the variable is not set). -/
def navHeight (navVar : JSString) : Int := orDefault (parseInt (trim navVar)) 72

/-- What the smooth-scroll listener reads from the page.  Layout coordinates
are taken as integers; the listener only adds and subtracts them.  A selector
on which `querySelector` finds nothing, or throws, gives `none`: in both cases
the listener stops before any effect. -/
structure ScrollEnv where
  querySelector : String → Option Nat
  navVar : JSString
  rectTop : Nat → Int
  scrollY : Int

/-- What one run of the smooth-scroll listener did. -/
structure ScrollOutcome where
  defaultPrevented : Bool
  nav : NavState
  scrolledTo : Option Int
  focused : Option Nat
  deriving DecidableEq, Repr

/-- The click listener of an in-page anchor, given its `href` attribute. -/
def anchorClick (env : ScrollEnv) (href : Option String) (nav : NavState) : ScrollOutcome :=
  let untouched : ScrollOutcome :=
    { defaultPrevented := false, nav := nav, scrolledTo := none, focused := none }
  match href with
  | none => untouched
  | some targetId =>
    if targetId = "" ∨ targetId = "#" then untouched
    else
      match env.querySelector targetId with
      | none => untouched
      | some target =>
        let top := env.rectTop target + env.scrollY - navHeight env.navVar
        { defaultPrevented := true
          nav := closeMobileMenu nav
          scrolledTo := some top
          focused := some target }

/-- A page whose only fragment target is `#about`, 500 units below the top of
the viewport, scrolled by 100 units, with the given `--nav-h`. -/
def aboutPage (navVar : String) : ScrollEnv :=
  { querySelector := fun sel => if sel = "#about" then some 0 else none
    navVar := js navVar
    rectTop := fun _ => 500
    scrollY := 100 }

/-! ## 4. Accordion

Elements are named by natural numbers.  The markup the script only reads is
kept apart from the attributes it writes. -/

/-- A function changed at one point: writing one attribute of one element. -/
def setAt {α : Type} (f : Nat → α) (i : Nat) (v : α) : Nat → α :=
  fun j => if j = i then v else f j

/-- The markup read by `initAccordions`: the static node list
`querySelectorAll(".accordion-toggle")` in document order, the `aria-controls`
attribute of every element, and `document.getElementById`. -/
structure AccordionDoc where
  toggles : List Nat
  ariaControls : Nat → Option String
  getElementById : String → Option Nat

/-- The attributes written by the accordion, per element, and the callbacks
handed to `requestAnimationFrame` that have not run yet; each of them adds
`is-open` to the body it names. -/
structure AccordionState where
  ariaExpanded : Nat → Option String
  hidden : Nat → Bool
  isOpen : Nat → Bool
  pending : List Nat

/-- The body of a toggle: `id ? document.getElementById(id) : null` for its
`aria-controls` attribute `id`. -/
def bodyOf (d : AccordionDoc) (toggle : Nat) : Option Nat :=
  match d.ariaControls toggle with
  | none => none
  | some bodyId => if bodyId = "" then none else d.getElementById bodyId

/-- One turn of the inner `toggles.forEach`: collapse `other` when it is not
the clicked toggle and its body is not hidden. -/
def collapseOther (d : AccordionDoc) (toggle : Nat) (s : AccordionState) (other : Nat) :
    AccordionState :=
  if other ≠ toggle then
    match bodyOf d other with
    | some otherBody =>
      if !(s.hidden otherBody) then
        { s with
          ariaExpanded := setAt s.ariaExpanded other (some "false")
          hidden := setAt s.hidden otherBody true
          isOpen := setAt s.isOpen otherBody false }
      else s
    | none => s
  else s

/-- The click listener registered for `toggle`, whose body is `body`. -/
def toggleClickHandler (d : AccordionDoc) (toggle body : Nat) (s : AccordionState) :
    AccordionState :=
  let isExpanded : Bool := s.ariaExpanded toggle == some "true"
  let s1 := d.toggles.foldl (collapseOther d toggle) s
  if isExpanded then
    { s1 with
      ariaExpanded := setAt s1.ariaExpanded toggle (some "false")
      hidden := setAt s1.hidden body true
      isOpen := setAt s1.isOpen body false }
  else
    { s1 with
      ariaExpanded := setAt s1.ariaExpanded toggle (some "true")
      hidden := setAt s1.hidden body false
      pending := s1.pending ++ [body] }

/-- A click on an element: the listener runs when the element is one of the
toggles and had a body when the script started; otherwise nothing runs. -/
def accordionClick (d : AccordionDoc) (s : AccordionState) (toggle : Nat) : AccordionState :=
  if toggle ∈ d.toggles then
    match bodyOf d toggle with
    | some body => toggleClickHandler d toggle body s
    | none => s
  else s

/-- An animation frame: the pending callbacks run in the order they were
requested. -/
def accordionFrame (s : AccordionState) : AccordionState :=
  { s with
    isOpen := s.pending.foldl (fun cls body => setAt cls body true) s.isOpen
    pending := [] }

/-- What can happen to the accordion. -/
inductive AccordionEvent where
  | click (toggle : Nat)
  | frame
  deriving DecidableEq, Repr

/-- The effect of one event. -/
def accordionStep (d : AccordionDoc) (s : AccordionState) : AccordionEvent → AccordionState
  | .click toggle => accordionClick d s toggle
  | .frame => accordionFrame s

/-- The effect of a sequence of events. -/
def accordionRun (d : AccordionDoc) (s : AccordionState) (evs : List AccordionEvent) :
    AccordionState :=
  evs.foldl (accordionStep d) s

/-- The events of a run in which every click is followed by an animation
frame before the next click. -/
def settledClicks : List Nat → List AccordionEvent
  | [] => []
  | toggle :: rest => .click toggle :: .frame :: settledClicks rest

/-- No callback is pending and every body carrying `is-open` is unhidden. -/
def Settled (s : AccordionState) : Prop :=
  s.pending = [] ∧ ∀ x, s.isOpen x = true → s.hidden x = false

/-- The accordion bodies of a page, each once. -/
def accordionBodies (d : AccordionDoc) : List Nat := (d.toggles.filterMap (bodyOf d)).dedup

/-- How many accordion bodies are not hidden. -/
def unhiddenCount (d : AccordionDoc) (s : AccordionState) : Nat :=
  ((accordionBodies d).filter (fun b => !(s.hidden b))).length

/-- How many accordion bodies carry `is-open`. -/
def openClassCount (d : AccordionDoc) (s : AccordionState) : Nat :=
  ((accordionBodies d).filter (fun b => s.isOpen b)).length

/-- Toggles and bodies come in pairs: no body is controlled by two toggles. -/
def Paired (d : AccordionDoc) : Prop :=
  ∀ o1 ∈ d.toggles, ∀ o2 ∈ d.toggles,
    bodyOf d o1 ≠ none → bodyOf d o1 = bodyOf d o2 → o1 = o2

instance (d : AccordionDoc) : Decidable (Paired d) := by
  unfold Paired; infer_instance

/-- A page with two pairs: toggle 0 controls body 1 (`panel-a`), toggle 2
controls body 3 (`panel-b`). -/
def twoPairs : AccordionDoc :=
  { toggles := [0, 2]
    ariaControls := fun n =>
      if n = 0 then some "panel-a" else if n = 2 then some "panel-b" else none
    getElementById := fun id =>
      if id = "panel-a" then some 1 else if id = "panel-b" then some 3 else none }

/-- Every body hidden, no `is-open` class, nothing pending. -/
def allClosed : AccordionState :=
  { ariaExpanded := fun _ => some "false"
    hidden := fun _ => true
    isOpen := fun _ => false
    pending := [] }

/-! ## 5. Scroll reveal -/

/-- The reveal elements: which carry `is-visible`, and which the observer
watches. -/
structure RevealState where
  visible : Nat → Bool
  observed : Nat → Bool

/-- An `IntersectionObserverEntry`, as far as the callback reads it. -/
structure IntersectionEntry where
  target : Nat
  isIntersecting : Bool
  deriving DecidableEq, Repr

/-- What the callback does with one entry. -/
def revealEntry (s : RevealState) (entry : IntersectionEntry) : RevealState :=
  if entry.isIntersecting then
    { visible := setAt s.visible entry.target true
      observed := setAt s.observed entry.target false }
  else s

/-- The observer callback, run on one notification. -/
def observerCallback (s : RevealState) (entries : List IntersectionEntry) : RevealState :=
  entries.foldl revealEntry s

/-- The initializer `initScrollReveal` on the elements matching `.reveal`,
given the reduced-motion preference and whether `IntersectionObserver` exists.
The staggered `transitionDelay` it also writes is a style nothing here reads. -/
def initScrollReveal (prefersReducedMotion hasObserver : Bool) (revealEls : List Nat)
    (visible : Nat → Bool) : RevealState :=
  if prefersReducedMotion then
    { visible := revealEls.foldl (fun v el => setAt v el true) visible
      observed := fun _ => false }
  else if !hasObserver then
    { visible := revealEls.foldl (fun v el => setAt v el true) visible
      observed := fun _ => false }
  else
    { visible := visible
      observed := revealEls.foldl (fun o el => setAt o el true) (fun _ => false) }

/-- The state after a sequence of notifications. -/
def revealRun (s : RevealState) (notes : List (List IntersectionEntry)) : RevealState :=
  notes.foldl observerCallback s

/-- In how many notifications of a sequence the element goes from not visible
to visible. -/
def revealTransitions (el : Nat) (s : RevealState) : List (List IntersectionEntry) → Nat
  | [] => 0
  | entries :: rest =>
    (if !(s.visible el) && (observerCallback s entries).visible el then 1 else 0) +
      revealTransitions el (observerCallback s entries) rest

/-! ## 6. Contact form: errors, submission, timers -/

/-- The function `showError(field, msg)`: the class and `aria-invalid` follow
the truthiness of `msg`, and the paired error element, when there is one,
shows `msg`. -/
def showError (field : Field) (msg : String) : Field :=
  { field with
    isInvalid := msg != ""
    ariaInvalid := some (if msg != "" then "true" else "false")
    errorText := field.errorText.map (fun _ => msg) }

/-- The function `clearError(field)`. -/
def clearError (field : Field) : Field := showError field ""

/-- The callback the submit listener hands to `requestAnimationFrame`. -/
inductive FrameCallback where
  | showSuccess
  deriving DecidableEq, Repr

/-- The two callbacks handed to `setTimeout`: the outer one (6000) and the one
it sets in turn (300). -/
inductive TimerCallback where
  | fadeSuccess
  | hideSuccess
  deriving DecidableEq, Repr

/-- An element inside the form.  It is either a control matching
`input, textarea`, or any other element, of which only the presence of the
class `is-invalid` is recorded.  `focusable` says whether calling `focus()` on
the element moves the focus to it: it does not on an `input type="hidden"`, on
a disabled control, or on an element that is not rendered.  The controls are
those that keep the string assigned to `value` as it is (text-like inputs and
textareas). -/
inductive FormNode where
  | field (f : Field) (focusable : Bool)
  | other (isInvalid : Bool) (focusable : Bool)
  deriving DecidableEq, Repr

/-- Whether the class list of the element holds `is-invalid`. -/
def hasInvalidClass : FormNode → Bool
  | .field f _ => f.isInvalid
  | .other isInvalid _ => isInvalid

/-- Whether `focus()` moves the focus to the element. -/
def takesFocus : FormNode → Bool
  | .field _ focusable => focusable
  | .other _ focusable => focusable

/-- The controls among the elements: `form.querySelectorAll("input, textarea")`,
in document order. -/
def formFields : List FormNode → List Field
  | [] => []
  | .field f _ :: rest => f :: formFields rest
  | .other _ _ :: rest => formFields rest

/-- The contact form: the elements inside it in document order, the `hidden`
property and the `is-visible` class of `#formSuccess`, the index of the
element that has focus (`none` when the focus is outside the form), the
animation-frame callbacks not yet run, the timers not yet fired with the time
each is due, and the clock. -/
structure FormState where
  nodes : List FormNode
  successHidden : Bool
  successVisible : Bool
  focused : Option Nat
  frames : List FrameCallback
  timers : List (Nat × TimerCallback)
  now : Nat
  deriving DecidableEq, Repr

/-- What the first loop of the submit listener does to one element: a control
is shown its own validation result, any other element is left alone. -/
def showNode : FormNode → FormNode
  | .field f focusable => .field (showError f (validateField f)) focusable
  | .other isInvalid focusable => .other isInvalid focusable

/-- What the second loop of the submit listener does to one element: the value
of a control is emptied and its error cleared. -/
def clearNode : FormNode → FormNode
  | .field f focusable => .field (clearError { f with value := [] }) focusable
  | .other isInvalid focusable => .other isInvalid focusable

/-- The first `forEach` of the submit listener, over the controls of the form:
every one is validated and its error shown, and `isValid` drops when a message
is truthy.  The result is the elements as the loop leaves them, and
`isValid`. -/
def validateAll (nodes : List FormNode) : List FormNode × Bool :=
  nodes.foldl
    (fun acc node =>
      match node with
      | .field field focusable =>
        let msg := validateField field
        (acc.1 ++ [FormNode.field (showError field msg) focusable],
          if msg != "" then false else acc.2)
      | .other isInvalid focusable => (acc.1 ++ [FormNode.other isInvalid focusable], acc.2))
    ([], true)

/-- The lookup `form.querySelector(".is-invalid")`: the index of the first
element inside the form, of any tag, whose class list holds `is-invalid`. -/
def querySelectorInvalid : List FormNode → Option Nat
  | [] => none
  | node :: rest =>
    if hasInvalidClass node then some 0 else (querySelectorInvalid rest).map (· + 1)

/-- The call `element.focus()` on the element at the given index: the focus
moves there when the element can take it, and stays where it was otherwise. -/
def focusElement (s : FormState) (index : Nat) : FormState :=
  match s.nodes[index]? with
  | some node => if takesFocus node then { s with focused := some index } else s
  | none => s

/-- The submit listener.  Cancelling the default action and scrolling the
message into view change nothing that is recorded here. -/
def submit (s : FormState) : FormState :=
  let checked := validateAll s.nodes
  let s1 := { s with nodes := checked.1 }
  if !checked.2 then
    match querySelectorInvalid s1.nodes with
    | some firstInvalid => focusElement s1 firstInvalid
    | none => s1
  else
    let s2 := { s1 with nodes := s1.nodes.map clearNode }
    { s2 with
      successHidden := false
      frames := s2.frames ++ [FrameCallback.showSuccess]
      timers := s2.timers ++ [(s2.now + 6000, TimerCallback.fadeSuccess)] }

/-- Running an animation-frame callback. -/
def runFrameCallback (s : FormState) : FrameCallback → FormState
  | .showSuccess => { s with successVisible := true }

/-- An animation frame: the callbacks requested so far run in order. -/
def formFrame (s : FormState) : FormState :=
  s.frames.foldl runFrameCallback { s with frames := [] }

/-- Running a timer callback. -/
def runTimerCallback (s : FormState) : TimerCallback → FormState
  | .fadeSuccess =>
    { s with
      successVisible := false
      timers := s.timers ++ [(s.now + 300, TimerCallback.hideSuccess)] }
  | .hideSuccess => { s with successHidden := true }

/-- The timer due first; among timers due together, the one set first. -/
def earliest : List (Nat × TimerCallback) → Option (Nat × TimerCallback)
  | [] => none
  | t :: rest =>
    match earliest rest with
    | none => some t
    | some u => if t.1 ≤ u.1 then some t else some u

/-- One timer fires: it leaves the list, the clock moves to the time it was due
(never backwards), and its callback runs. -/
def fireTimer (s : FormState) (t : Nat × TimerCallback) : FormState :=
  runTimerCallback { s with timers := s.timers.erase t, now := max s.now t.1 } t.2

/-- Fire, in the order they are due, the timers due by `target`, those set on
the way included. -/
def fireDue (target : Nat) : Nat → FormState → FormState
  | 0, s => s
  | fuel + 1, s =>
    match earliest s.timers with
    | none => s
    | some t => if t.1 ≤ target then fireDue target fuel (fireTimer s t) else s

/-- How many firings a callback can cause, itself included. -/
def timerWeight : TimerCallback → Nat
  | .fadeSuccess => 2
  | .hideSuccess => 1

/-- A bound on the firings a list of timers can cause. -/
def timersFuel (timers : List (Nat × TimerCallback)) : Nat :=
  (timers.map (fun t => timerWeight t.2)).sum

/-- Let `dt` time units pass: the timers due by then fire, and the clock ends
`dt` later. -/
def formWait (dt : Nat) (s : FormState) : FormState :=
  { fireDue (s.now + dt) (timersFuel s.timers) s with now := s.now + dt }

/-- What happens to the form once submitted: frames and the passing of time. -/
inductive FormEvent where
  | frame
  | wait (dt : Nat)
  deriving DecidableEq, Repr

/-- The effect of one event. -/
def formStep (s : FormState) : FormEvent → FormState
  | .frame => formFrame s
  | .wait dt => formWait dt s

/-- The effect of a sequence of events. -/
def formRun (s : FormState) (evs : List FormEvent) : FormState := evs.foldl formStep s

/-- The time that passes during a sequence of events. -/
def elapsed : List FormEvent → Nat
  | [] => 0
  | .frame :: rest => elapsed rest
  | .wait dt :: rest => dt + elapsed rest

/-- The phases after a valid submission at time `t0`, `e` time units on: the
fade timer pending, then the hide timer pending, then the message hidden. -/
def SuccessPhase (t0 : Nat) (st : FormState) (e : Nat) : Prop :=
  st.now = t0 + e ∧
  ((e < 6000 ∧ (t0 + 6000, TimerCallback.fadeSuccess) ∈ st.timers) ∨
   (6000 ≤ e ∧ e < 6300 ∧ (t0 + 6300, TimerCallback.hideSuccess) ∈ st.timers) ∨
   (6300 ≤ e ∧ st.successHidden = true))

/-- The same phases when no timer was pending at the submission: the timer
list is known exactly and the message stays unhidden until the hide timer. -/
def FreshPhase (t0 : Nat) (st : FormState) (e : Nat) : Prop :=
  st.now = t0 + e ∧
  ((e < 6000 ∧ st.timers = [(t0 + 6000, TimerCallback.fadeSuccess)] ∧
      st.successHidden = false ∧ (st.frames ≠ [] ∨ st.successVisible = true)) ∨
   (6000 ≤ e ∧ e < 6300 ∧ st.timers = [(t0 + 6300, TimerCallback.hideSuccess)] ∧
      st.successHidden = false) ∨
   6300 ≤ e)

/-- An `input type="text"` holding the given text, with an error element. -/
def textInput (text : String) : Field :=
  { value := js text, type := "text", tagName := "INPUT",
    isInvalid := false, ariaInvalid := none, errorText := some "" }

/-- An `input type="hidden"` holding the given text. -/
def hiddenInput (text : String) : Field :=
  { value := js text, type := "hidden", tagName := "INPUT",
    isInvalid := false, ariaInvalid := none, errorText := none }

/-- A form at rest: the given elements, the focus outside the form, the
success message hidden, nothing pending, the clock at 0. -/
def formOf (nodes : List FormNode) : FormState :=
  { nodes := nodes, successHidden := true, successVisible := false, focused := none,
    frames := [], timers := [], now := 0 }

/-- A form at rest whose elements are the given controls, all of them able to
take focus. -/
def formAtRest (fields : List Field) : FormState :=
  formOf (fields.map (fun f => FormNode.field f true))

/-- A form whose first control is a hidden input with no value, which cannot
take focus, followed by a filled text input. -/
def hiddenFirstForm : FormState :=
  formOf [FormNode.field (hiddenInput "") false, FormNode.field (textInput "Ann") true]

/-- A form whose three controls all pass validation. -/
def validForm : FormState :=
  formAtRest [textInput "Ann", emailInput "a@b.co", textArea "hello there, world"]

/-! ## Regular expressions: the matcher computes the language -/

namespace Re

theorem matches_never_iff (w : JSString) : Matches never w ↔ False := by
  constructor
  · intro h; cases h
  · intro h; exact h.elim

theorem matches_empty_iff (w : JSString) : Matches empty w ↔ w = [] := by
  constructor
  · intro h; cases h; rfl
  · rintro rfl; exact Matches.empty

theorem matches_cls_iff (p : CodeUnit → Bool) (w : JSString) :
    Matches (cls p) w ↔ ∃ c, w = [c] ∧ p c = true := by
  constructor
  · intro h; cases h with
    | cls hc => exact ⟨_, rfl, hc⟩
  · rintro ⟨c, rfl, hc⟩; exact Matches.cls hc

theorem matches_cat_iff (a b : Re) (w : JSString) :
    Matches (cat a b) w ↔ ∃ u v, w = u ++ v ∧ Matches a u ∧ Matches b v := by
  constructor
  · intro h; cases h with
    | cat ha hb => exact ⟨_, _, rfl, ha, hb⟩
  · rintro ⟨u, v, rfl, ha, hb⟩; exact Matches.cat ha hb

theorem matches_alt_iff (a b : Re) (w : JSString) :
    Matches (alt a b) w ↔ Matches a w ∨ Matches b w := by
  constructor
  · intro h; cases h with
    | altL ha => exact Or.inl ha
    | altR hb => exact Or.inr hb
  · rintro (ha | hb)
    · exact Matches.altL ha
    · exact Matches.altR hb

/-- A non-empty word of `a*` starts with a non-empty word of `a`. -/
theorem matches_star_cons (a : Re) (c : CodeUnit) (w : JSString)
    (h : Matches (star a) (c :: w)) :
    ∃ u v, w = u ++ v ∧ Matches a (c :: u) ∧ Matches (star a) v := by
  generalize hr : star a = r at h
  generalize hx : c :: w = x at h
  induction h generalizing w with
  | empty => cases hr
  | cls _ => cases hr
  | cat _ _ => cases hr
  | altL _ => cases hr
  | altR _ => cases hr
  | starNil => cases hx
  | @starCons a2 u v hu hv _ ihv =>
    cases hr
    cases u with
    | nil => exact ihv w rfl (by simpa using hx)
    | cons d u2 =>
      simp only [List.cons_append, List.cons.injEq] at hx
      obtain ⟨rfl, rfl⟩ := hx
      exact ⟨u2, v, rfl, hu, hv⟩

theorem nullable_iff (r : Re) : r.nullable = true ↔ Matches r [] := by
  induction r with
  | never => simp [nullable, matches_never_iff]
  | empty => simp [nullable, matches_empty_iff]
  | cls p => simp [nullable, matches_cls_iff]
  | cat a b iha ihb =>
    simp only [nullable, Bool.and_eq_true, iha, ihb, matches_cat_iff]
    constructor
    · rintro ⟨ha, hb⟩; exact ⟨[], [], rfl, ha, hb⟩
    · rintro ⟨u, v, huv, ha, hb⟩
      obtain ⟨hu, hv⟩ := List.append_eq_nil.1 huv.symm
      subst hu; subst hv; exact ⟨ha, hb⟩
  | alt a b iha ihb => simp [nullable, iha, ihb, matches_alt_iff]
  | star a _ => simp only [nullable, true_iff]; exact Matches.starNil

theorem step_iff (c : CodeUnit) (r : Re) (w : JSString) :
    Matches (r.step c) w ↔ Matches r (c :: w) := by
  induction r generalizing w with
  | never => simp [step, matches_never_iff]
  | empty => simp [step, matches_never_iff, matches_empty_iff]
  | cls p =>
    rw [matches_cls_iff]
    by_cases hp : p c = true
    · have e : step c (cls p) = empty := by simp [step, hp]
      rw [e, matches_empty_iff]
      constructor
      · rintro rfl; exact ⟨c, rfl, hp⟩
      · rintro ⟨d, hd, _⟩
        simp only [List.cons.injEq] at hd
        exact hd.2
    · have e : step c (cls p) = never := by simp [step, hp]
      rw [e, matches_never_iff, false_iff]
      rintro ⟨d, hd, hpd⟩
      simp only [List.cons.injEq] at hd
      exact hp (hd.1 ▸ hpd)
  | cat a b iha ihb =>
    have key : Matches (cat a b) (c :: w) ↔
        (∃ u v, w = u ++ v ∧ Matches a (c :: u) ∧ Matches b v) ∨
        (Matches a [] ∧ Matches b (c :: w)) := by
      rw [matches_cat_iff]
      constructor
      · rintro ⟨u, v, huv, ha, hb⟩
        cases u with
        | nil => right; simp only [List.nil_append] at huv; exact ⟨ha, huv ▸ hb⟩
        | cons d u2 =>
          simp only [List.cons_append, List.cons.injEq] at huv
          obtain ⟨rfl, rfl⟩ := huv
          exact Or.inl ⟨u2, v, rfl, ha, hb⟩
      · rintro (⟨u, v, rfl, ha, hb⟩ | ⟨ha, hb⟩)
        · exact ⟨c :: u, v, rfl, ha, hb⟩
        · exact ⟨[], c :: w, rfl, ha, hb⟩
    have hstep : Matches (cat (a.step c) b) w ↔
        ∃ u v, w = u ++ v ∧ Matches a (c :: u) ∧ Matches b v := by
      rw [matches_cat_iff]
      constructor
      · rintro ⟨u, v, huv, ha, hb⟩; exact ⟨u, v, huv, (iha u).1 ha, hb⟩
      · rintro ⟨u, v, huv, ha, hb⟩; exact ⟨u, v, huv, (iha u).2 ha, hb⟩
    rw [key]
    by_cases hn : a.nullable = true
    · have e : step c (cat a b) = alt (cat (a.step c) b) (b.step c) := by simp [step, hn]
      have hnil := (nullable_iff a).1 hn
      rw [e, matches_alt_iff, hstep, ihb]
      constructor
      · rintro (h | h)
        · exact Or.inl h
        · exact Or.inr ⟨hnil, h⟩
      · rintro (h | ⟨_, h⟩)
        · exact Or.inl h
        · exact Or.inr h
    · have e : step c (cat a b) = cat (a.step c) b := by simp [step, hn]
      have hnil : ¬ Matches a [] := fun h => hn ((nullable_iff a).2 h)
      rw [e, hstep]
      constructor
      · intro h; exact Or.inl h
      · rintro (h | ⟨h, _⟩)
        · exact h
        · exact (hnil h).elim
  | alt a b iha ihb => simp [step, matches_alt_iff, iha, ihb]
  | star a iha =>
    simp only [step, matches_cat_iff, iha]
    constructor
    · rintro ⟨u, v, rfl, ha, hs⟩
      exact Matches.starCons (u := c :: u) ha hs
    · intro h
      exact matches_star_cons a c w h

/-- The derivative matcher decides the language of the expression. -/
theorem test_iff (r : Re) (s : JSString) : r.test s = true ↔ Matches r s := by
  unfold test
  induction s generalizing r with
  | nil => simpa using nullable_iff r
  | cons c s ih => rw [List.foldl_cons, ih, step_iff]

theorem matches_lit_iff (c : CodeUnit) (w : JSString) : Matches (lit c) w ↔ w = [c] := by
  simp [lit, matches_cls_iff]

theorem matches_star_cls_iff (p : CodeUnit → Bool) (w : JSString) :
    Matches (star (cls p)) w ↔ ∀ c ∈ w, p c = true := by
  induction w with
  | nil =>
    simp only [List.not_mem_nil, false_implies, implies_true, iff_true]
    exact Matches.starNil
  | cons d w ih =>
    constructor
    · intro h
      obtain ⟨u, v, rfl, hu, hv⟩ := matches_star_cons _ d w h
      obtain ⟨e, he, hpe⟩ := (matches_cls_iff p _).1 hu
      simp only [List.cons.injEq] at he
      obtain ⟨rfl, rfl⟩ := he
      intro x hx
      simp only [List.nil_append, List.mem_cons] at hx
      rcases hx with rfl | hx
      · exact hpe
      · exact ih.1 hv x hx
    · intro h
      have h1 : Matches (cls p) [d] := Matches.cls (h d (List.mem_cons_self _ _))
      have h2 : Matches (star (cls p)) w := ih.2 (fun x hx => h x (List.mem_cons_of_mem _ hx))
      exact Matches.starCons h1 h2

theorem matches_plus_cls_iff (p : CodeUnit → Bool) (w : JSString) :
    Matches (plus (cls p)) w ↔ w ≠ [] ∧ ∀ c ∈ w, p c = true := by
  simp only [plus, matches_cat_iff, matches_cls_iff, matches_star_cls_iff]
  constructor
  · rintro ⟨u, v, rfl, ⟨c, rfl, hc⟩, hv⟩
    refine ⟨by simp, ?_⟩
    intro x hx
    simp only [List.singleton_append, List.mem_cons] at hx
    rcases hx with rfl | hx
    · exact hc
    · exact hv x hx
  · rintro ⟨hne, hall⟩
    cases w with
    | nil => exact (hne rfl).elim
    | cons d w =>
      exact ⟨[d], w, rfl, ⟨d, rfl, hall d (List.mem_cons_self _ _)⟩,
        fun x hx => hall x (List.mem_cons_of_mem _ hx)⟩

theorem matches_atLeastTwo_cls_iff (p : CodeUnit → Bool) (w : JSString) :
    Matches (atLeastTwo (cls p)) w ↔ 2 ≤ w.length ∧ ∀ c ∈ w, p c = true := by
  simp only [atLeastTwo, matches_cat_iff, matches_cls_iff, matches_star_cls_iff]
  constructor
  · rintro ⟨u, v, rfl, ⟨c, rfl, hc⟩, u2, v2, rfl, ⟨d, rfl, hd⟩, hv⟩
    refine ⟨by simp, ?_⟩
    intro x hx
    simp only [List.singleton_append, List.mem_cons] at hx
    rcases hx with rfl | rfl | hx
    · exact hc
    · exact hd
    · exact hv x hx
  · rintro ⟨hlen, hall⟩
    match w, hlen, hall with
    | c :: d :: w2, _, hall =>
      exact ⟨[c], d :: w2, rfl, ⟨c, rfl, hall c (by simp)⟩, [d], w2, rfl,
        ⟨d, rfl, hall d (by simp)⟩, fun x hx => hall x (by simp [hx])⟩

end Re

/-! ## Field validation -/

theorem notSpaceOrAt_dot : notSpaceOrAt dot = true := by decide

theorem noSpaceOrAt_append (u v : JSString) :
    NoSpaceOrAt (u ++ v) ↔ NoSpaceOrAt u ∧ NoSpaceOrAt v := by
  simp only [NoSpaceOrAt, List.mem_append]
  constructor
  · intro h; exact ⟨fun c hc => h c (Or.inl hc), fun c hc => h c (Or.inr hc)⟩
  · rintro ⟨h1, h2⟩ c (hc | hc)
    · exact h1 c hc
    · exact h2 c hc

theorem noSpaceOrAt_cons (c : CodeUnit) (v : JSString) :
    NoSpaceOrAt (c :: v) ↔ notSpaceOrAt c = true ∧ NoSpaceOrAt v := by
  simp [NoSpaceOrAt]

/-- The language of the email pattern, spelled out. -/
theorem matches_emailRe_iff (v : JSString) : Re.Matches emailRe v ↔ EmailShape v := by
  unfold emailRe EmailShape
  simp only [Re.matches_cat_iff, Re.matches_plus_cls_iff, Re.matches_lit_iff,
    Re.matches_atLeastTwo_cls_iff]
  constructor
  · rintro ⟨l, r1, rfl, ⟨hl, hlok⟩, a, r2, rfl, rfl, m, r3, rfl, ⟨hm, hmok⟩, d, t, rfl, rfl,
      ht, htok⟩
    refine ⟨l, m ++ dot :: t, by simp, hl, hlok, ?_, m, t, rfl, hm, ht⟩
    rw [noSpaceOrAt_append, noSpaceOrAt_cons]
    exact ⟨hmok, notSpaceOrAt_dot, htok⟩
  · rintro ⟨l, d, rfl, hl, hlok, hdok, m, t, rfl, hm, ht⟩
    rw [noSpaceOrAt_append, noSpaceOrAt_cons] at hdok
    exact ⟨l, _, rfl, ⟨hl, hlok⟩, [atSign], _, rfl, rfl, m, _, rfl, ⟨hm, hdok.1⟩, [dot], t,
      rfl, rfl, ht, hdok.2.2⟩

/-- The pattern test succeeds exactly on the accepted shape. -/
theorem emailRe_test_iff (v : JSString) : emailRe.test v = true ↔ EmailShape v := by
  rw [Re.test_iff, matches_emailRe_iff]

/-- The result of `validateField`, case by case. -/
theorem validateField_eq (f : Field) :
    validateField f =
      if trim f.value = [] then msgRequired
      else if f.type = "email" ∧ emailRe.test (trim f.value) = false then msgEmail
      else if f.tagName = "TEXTAREA" ∧ (trim f.value).length < 10 then msgShort
      else "" := by
  unfold validateField
  by_cases h1 : trim f.value = []
  · simp [h1]
  · by_cases h2 : f.type = "email" <;> by_cases h3 : emailRe.test (trim f.value) = true <;>
      by_cases h4 : f.tagName = "TEXTAREA" <;> by_cases h5 : (trim f.value).length < 10 <;>
      simp [h1, h2, h3, h4, h5, List.isEmpty_iff]

/-- C1: `validateField` returns the required-field message when the trimmed
value is empty; otherwise the invalid-email message when the type is `email`
and the trimmed value fails the pattern; otherwise the too-short message when
the tag is `TEXTAREA` and the trimmed value has fewer than 10 code units;
otherwise the empty string.  The five scenarios of the specification follow. -/
theorem validateField_contract (f : Field) :
    (validateField f =
      if trim f.value = [] then "This field is required."
      else if f.type = "email" ∧ emailRe.test (trim f.value) = false then
        "Please enter a valid email address."
      else if f.tagName = "TEXTAREA" ∧ (trim f.value).length < 10 then
        "Please write at least 10 characters."
      else "") ∧
    (∀ g : Field, trim g.value = [] → validateField g = "This field is required.") ∧
    (∀ g : Field, g.type = "email" → g.value = js "a@b" →
      validateField g = "Please enter a valid email address.") ∧
    (∀ g : Field, g.type = "email" → g.tagName ≠ "TEXTAREA" → g.value = js "a@b.co" →
      validateField g = "") ∧
    (∀ g : Field, g.tagName = "TEXTAREA" → g.type ≠ "email" → (trim g.value).length = 5 →
      validateField g = "Please write at least 10 characters.") ∧
    (∀ g : Field, g.tagName = "TEXTAREA" → g.type ≠ "email" → (trim g.value).length = 12 →
      validateField g = "") := by
  refine ⟨validateField_eq f, ?_, ?_, ?_, ?_, ?_⟩
  · intro g hg
    rw [validateField_eq, if_pos hg]; rfl
  · intro g hty hv
    have ht : trim g.value = js "a@b" := by rw [hv]; decide
    have hre : emailRe.test (js "a@b") = false := by decide
    rw [validateField_eq, ht, if_neg (by decide), if_pos ⟨hty, hre⟩]; rfl
  · intro g hty htag hv
    have ht : trim g.value = js "a@b.co" := by rw [hv]; decide
    have hre : ¬ emailRe.test (js "a@b.co") = false := by decide
    rw [validateField_eq, ht, if_neg (by decide), if_neg (fun h => hre h.2),
      if_neg (fun h => htag h.1)]
  · intro g htag hty hlen
    have hne : trim g.value ≠ [] := by
      intro h; rw [h] at hlen; exact absurd hlen (by decide)
    rw [validateField_eq, if_neg hne, if_neg (fun h => hty h.1),
      if_pos ⟨htag, by omega⟩]; rfl
  · intro g htag hty hlen
    have hne : trim g.value ≠ [] := by
      intro h; rw [h] at hlen; exact absurd hlen (by decide)
    rw [validateField_eq, if_neg hne, if_neg (fun h => hty h.1),
      if_neg (fun h => by omega)]

/-- Witness for C1: the five scenarios, on an empty text input, the addresses
`a@b` and `a@b.co`, and textareas holding `hello` and `hello world!`. -/
theorem validateField_contract_witness :
    validateField (textInput "   ") = "This field is required." ∧
    validateField (emailInput "a@b") = "Please enter a valid email address." ∧
    validateField (emailInput "a@b.co") = "" ∧
    validateField (textArea "hello") = "Please write at least 10 characters." ∧
    validateField (textArea "hello world!") = "" :=
  ⟨(validateField_contract (textInput "   ")).2.1 (textInput "   ") (by decide),
    (validateField_contract (emailInput "a@b")).2.2.1 (emailInput "a@b") (by decide) (by decide),
    (validateField_contract (emailInput "a@b.co")).2.2.2.1 (emailInput "a@b.co")
      (by decide) (by decide) (by decide),
    (validateField_contract (textArea "hello")).2.2.2.2.1 (textArea "hello")
      (by decide) (by decide) (by decide),
    (validateField_contract (textArea "hello world!")).2.2.2.2.2 (textArea "hello world!")
      (by decide) (by decide) (by decide)⟩

/-- C2, as stated, fails: the address `a@b.c.d` (which trimming leaves as it
is) draws no invalid-email error, yet it has not the shape of the claim: the
final dot-separated segment of its domain, `d`, has one character. -/
theorem validateField_email_spec_shape_fails :
    (emailInput "a@b.c.d").type = "email" ∧
    trim (emailInput "a@b.c.d").value = (emailInput "a@b.c.d").value ∧
    (emailInput "a@b.c.d").value ≠ [] ∧
    validateField (emailInput "a@b.c.d") ≠ "Please enter a valid email address." ∧
    ¬ SpecEmailShape (emailInput "a@b.c.d").value := by
  refine ⟨by decide, by decide, by decide, by decide, ?_⟩
  have e : (emailInput "a@b.c.d").value = [97, 64, 98, 46, 99, 46, 100] := by decide
  rintro ⟨l, d, hv, hl, hlok, _, hseg⟩
  rw [e] at hv
  match l, hl, hlok, hv with
  | [], hl, _, _ => exact hl rfl
  | [x], _, _, hv =>
    simp only [List.singleton_append, List.cons.injEq, atSign] at hv
    obtain ⟨_, _, rfl⟩ := hv
    exact absurd hseg (by decide)
  | x :: y :: l2, _, hlok, hv =>
    simp only [List.cons_append, List.cons.injEq] at hv
    have hy : notSpaceOrAt y = true := hlok y (by simp)
    rw [← hv.2.1] at hy
    exact absurd hy (by decide)

/-- C2, amended: for an email field with a non-empty trimmed value,
`validateField` returns no invalid-email error if and only if the trimmed value
is local part, `@`, domain, with a non-empty local part, neither part holding
whitespace or a further `@`, and the domain holding a dot with at least one
character before it and at least two characters after it. -/
theorem validateField_email_iff (f : Field) (hty : f.type = "email")
    (hne : trim f.value ≠ []) :
    validateField f ≠ "Please enter a valid email address." ↔ EmailShape (trim f.value) := by
  rw [← emailRe_test_iff, validateField_eq, if_neg hne]
  by_cases ht : emailRe.test (trim f.value) = true
  · have hn : ¬ (f.type = "email" ∧ emailRe.test (trim f.value) = false) := by
      rintro ⟨_, h⟩; rw [ht] at h; exact absurd h (by decide)
    rw [if_neg hn]
    refine ⟨fun _ => ht, fun _ => ?_⟩
    split
    · decide
    · decide
  · have hf : emailRe.test (trim f.value) = false := by
      cases h : emailRe.test (trim f.value) with
      | true => exact absurd h ht
      | false => rfl
    rw [if_pos ⟨hty, hf⟩]
    exact ⟨fun h => absurd rfl h, fun h => absurd h ht⟩

/-- Witness for C2: the accepted address `a@b.c.d`. -/
theorem validateField_email_iff_witness :
    (emailInput "a@b.c.d").type = "email" ∧ trim (emailInput "a@b.c.d").value ≠ [] ∧
    (validateField (emailInput "a@b.c.d") ≠ "Please enter a valid email address." ↔
      EmailShape (trim (emailInput "a@b.c.d").value)) :=
  ⟨by decide, by decide, validateField_email_iff (emailInput "a@b.c.d") (by decide) (by decide)⟩

/-! ## Mobile navigation -/

/-- C6: from the closed navigation, two runs of the click listener of the toggle
give back the same state: the flag, `aria-expanded`, `aria-label` and the
`is-open` class all have their values from before the first click (and the
state in between is the open one).  Whatever the two elements held before,
two clicks from a lowered flag end in the closed navigation. -/
theorem navToggleClick_twice :
    navToggleClick (navToggleClick closedNav) = closedNav ∧
    navToggleClick closedNav =
      { mobileMenuOpen := true
        toggle := some { ariaExpanded := some "true", ariaLabel := some "Close menu" }
        menu := some { isOpen := true } } ∧
    (∀ (t : NavToggle) (m : NavMenu),
      navToggleClick (navToggleClick { mobileMenuOpen := false, toggle := some t, menu := some m })
        = closedNav) := by
  refine ⟨rfl, rfl, ?_⟩
  intro t m
  rfl

/-- C7: `closeMobileMenu` is idempotent on every navigation state, and when
both elements exist its result is the closed state. -/
theorem closeMobileMenu_idempotent (s : NavState) :
    closeMobileMenu (closeMobileMenu s) = closeMobileMenu s ∧
    (∀ (flag : Bool) (t : NavToggle) (m : NavMenu),
      closeMobileMenu { mobileMenuOpen := flag, toggle := some t, menu := some m } =
        closedNav) := by
  constructor
  · obtain ⟨flag, toggle, menu⟩ := s
    cases toggle <;> cases menu <;> rfl
  · intro flag t m
    rfl

/-! ## Smooth scroll -/

/-- The scroll destination of a resolved anchor. -/
theorem anchorClick_resolved (env : ScrollEnv) (href : String) (nav : NavState) (target : Nat)
    (h1 : href ≠ "") (h2 : href ≠ "#") (ht : env.querySelector href = some target) :
    (anchorClick env (some href) nav).scrolledTo =
      some (env.rectTop target + env.scrollY - navHeight env.navVar) := by
  simp [anchorClick, h1, h2, ht]

/-- The fallback applies when the variable has no leading integer, and a
non-zero leading integer is used as it is. -/
theorem navHeight_cases (v : JSString) :
    (parseInt (trim v) = none → navHeight v = 72) ∧
    (∀ n : Int, parseInt (trim v) = some n → n ≠ 0 → navHeight v = n) := by
  constructor
  · intro h; simp [navHeight, orDefault, h]
  · intro n h hn; simp [navHeight, orDefault, h, hn]

/-- C8, at the failing input: with `--nav-h: 0px` the variable is present and
its number is 0, yet the listener takes 72 for the navigation-bar height and
scrolls to `500 + 100 - 72` where the claim has `500 + 100 - 0`. -/
theorem anchorClick_zero_nav_height :
    parseInt (trim (aboutPage "0px").navVar) = some 0 ∧
    navHeight (aboutPage "0px").navVar = 72 ∧
    (anchorClick (aboutPage "0px") (some "#about") closedNav).scrolledTo = some 528 ∧
    (anchorClick (aboutPage "64px") (some "#about") closedNav).scrolledTo = some 536 ∧
    (anchorClick (aboutPage "") (some "#about") closedNav).scrolledTo = some 528 := by
  refine ⟨by decide, by decide, by decide, by decide, by decide⟩

/-! ## Accordion -/

theorem setAt_same {α : Type} (f : Nat → α) (i : Nat) (v : α) : setAt f i v i = v := by
  simp [setAt]

theorem setAt_ne {α : Type} (f : Nat → α) (i j : Nat) (v : α) (h : j ≠ i) :
    setAt f i v j = f j := by
  simp [setAt, h]

/-- A turn of the collapsing loop never unhides anything. -/
theorem collapseOther_hidden_mono (d : AccordionDoc) (t : Nat) (s : AccordionState)
    (o x : Nat) (hx : s.hidden x = true) : (collapseOther d t s o).hidden x = true := by
  unfold collapseOther
  split
  · split
    · split
      · by_cases hxo : x = ‹Nat›
        · subst hxo; exact setAt_same _ _ _
        · show setAt s.hidden _ true x = true
          rw [setAt_ne _ _ _ _ hxo]; exact hx
      · exact hx
    · exact hx
  · exact hx

/-- The collapsing loop never unhides anything. -/
theorem collapseFold_hidden_mono (d : AccordionDoc) (t : Nat) (l : List Nat)
    (s : AccordionState) (x : Nat) (hx : s.hidden x = true) :
    (l.foldl (collapseOther d t) s).hidden x = true := by
  induction l generalizing s with
  | nil => exact hx
  | cons o l ih => exact ih _ (collapseOther_hidden_mono d t s o x hx)

/-- After its turn, the body of another toggle is hidden. -/
theorem collapseOther_hides (d : AccordionDoc) (t : Nat) (s : AccordionState)
    (o ob : Nat) (ho : o ≠ t) (hb : bodyOf d o = some ob) :
    (collapseOther d t s o).hidden ob = true := by
  unfold collapseOther
  rw [if_pos ho, hb]
  by_cases hh : s.hidden ob = true
  · simp [hh]
  · simp only [hh, Bool.not_false, if_true]
    exact setAt_same _ _ _

/-- After the collapsing loop, the body of every other toggle is hidden. -/
theorem collapseFold_hides (d : AccordionDoc) (t : Nat) (l : List Nat) (s : AccordionState)
    (o ob : Nat) (hmem : o ∈ l) (ho : o ≠ t) (hb : bodyOf d o = some ob) :
    (l.foldl (collapseOther d t) s).hidden ob = true := by
  induction l generalizing s with
  | nil => cases hmem
  | cons o2 l ih =>
    rw [List.foldl_cons]
    rcases List.mem_cons.1 hmem with rfl | hmem2
    · exact collapseFold_hidden_mono d t l _ ob (collapseOther_hides d t s o ob ho hb)
    · exact ih _ hmem2

/-- A turn of the collapsing loop leaves the clicked toggle alone. -/
theorem collapseOther_ariaExpanded_self (d : AccordionDoc) (t : Nat) (s : AccordionState)
    (o : Nat) : (collapseOther d t s o).ariaExpanded t = s.ariaExpanded t := by
  unfold collapseOther
  split
  · rename_i ho
    split
    · split
      · show setAt s.ariaExpanded o (some "false") t = s.ariaExpanded t
        exact setAt_ne _ _ _ _ (fun h => ho h.symm)
      · rfl
    · rfl
  · rfl

/-- The collapsing loop leaves the clicked toggle alone. -/
theorem collapseFold_ariaExpanded_self (d : AccordionDoc) (t : Nat) (l : List Nat)
    (s : AccordionState) : (l.foldl (collapseOther d t) s).ariaExpanded t = s.ariaExpanded t := by
  induction l generalizing s with
  | nil => rfl
  | cons o l ih => rw [List.foldl_cons, ih, collapseOther_ariaExpanded_self]

/-- A turn of the collapsing loop keeps a toggle marked collapsed. -/
theorem collapseOther_keeps_collapsed (d : AccordionDoc) (t : Nat) (s : AccordionState)
    (o a : Nat) (ha : s.ariaExpanded a = some "false") :
    (collapseOther d t s o).ariaExpanded a = some "false" := by
  unfold collapseOther
  split
  · split
    · split
      · show setAt s.ariaExpanded o (some "false") a = some "false"
        by_cases hao : a = o
        · subst hao; exact setAt_same _ _ _
        · rw [setAt_ne _ _ _ _ hao]; exact ha
      · exact ha
    · exact ha
  · exact ha

/-- The collapsing loop keeps a toggle marked collapsed. -/
theorem collapseFold_keeps_collapsed (d : AccordionDoc) (t : Nat) (l : List Nat)
    (s : AccordionState) (a : Nat) (ha : s.ariaExpanded a = some "false") :
    (l.foldl (collapseOther d t) s).ariaExpanded a = some "false" := by
  induction l generalizing s with
  | nil => exact ha
  | cons o l ih => exact ih _ (collapseOther_keeps_collapsed d t s o a ha)

/-- A turn for a toggle with a different body leaves a body as it was. -/
theorem collapseOther_hidden_other (d : AccordionDoc) (t : Nat) (s : AccordionState)
    (o x : Nat) (hne : bodyOf d o ≠ some x) :
    (collapseOther d t s o).hidden x = s.hidden x := by
  unfold collapseOther
  split
  · split
    · rename_i ob hob
      split
      · show setAt s.hidden ob true x = s.hidden x
        exact setAt_ne _ _ _ _ (fun h => hne (by rw [hob, h]))
      · rfl
    · rfl
  · rfl

/-- The collapsing loop marks an open pair collapsed, when no other toggle of
the list shares its body. -/
theorem collapseFold_collapses (d : AccordionDoc) (t : Nat) (l : List Nat)
    (s : AccordionState) (a ba : Nat) (hat : a ≠ t) (hb : bodyOf d a = some ba)
    (hmem : a ∈ l) (hopen : s.hidden ba = false)
    (hown : ∀ o ∈ l, o ≠ t → bodyOf d o = some ba → o = a) :
    (l.foldl (collapseOther d t) s).ariaExpanded a = some "false" := by
  induction l generalizing s with
  | nil => cases hmem
  | cons o l ih =>
    rw [List.foldl_cons]
    by_cases hoa : o = a
    · subst hoa
      apply collapseFold_keeps_collapsed
      unfold collapseOther
      rw [if_pos hat, hb]
      simp only [hopen, Bool.not_false, if_true]
      exact setAt_same _ _ _
    · have hmem2 : a ∈ l := by
        rcases List.mem_cons.1 hmem with h | h
        · exact absurd h.symm hoa
        · exact h
      by_cases hot : o = t
      · have e : collapseOther d t s o = s := by simp [collapseOther, hot]
        rw [e]
        exact ih s hmem2 hopen (fun o2 h2 => hown o2 (List.mem_cons_of_mem _ h2))
      · have hne : bodyOf d o ≠ some ba :=
          fun h => hoa (hown o (List.mem_cons_self _ _) hot h)
        refine ih _ hmem2 ?_ (fun o2 h2 => hown o2 (List.mem_cons_of_mem _ h2))
        rw [collapseOther_hidden_other d t s o ba hne]; exact hopen

/-- The hidden flags after the listener ran: the clicked body is set, the
others are as the collapsing loop left them. -/
theorem toggleClickHandler_hidden (d : AccordionDoc) (t b : Nat) (s : AccordionState)
    (x : Nat) (hx : x ≠ b) :
    (toggleClickHandler d t b s).hidden x = (d.toggles.foldl (collapseOther d t) s).hidden x := by
  unfold toggleClickHandler
  by_cases he : (s.ariaExpanded t == some "true") = true
  · simp only [he, if_true]; exact setAt_ne _ _ _ _ hx
  · simp only [he]; exact setAt_ne _ _ _ _ hx

/-- Members of the body list are bodies of toggles. -/
theorem mem_accordionBodies (d : AccordionDoc) (x : Nat) :
    x ∈ accordionBodies d ↔ ∃ o ∈ d.toggles, bodyOf d o = some x := by
  simp [accordionBodies, List.mem_filterMap]

/-- After the listener of a pair ran, every other accordion body is hidden. -/
theorem toggleClickHandler_others_hidden (d : AccordionDoc) (t b : Nat) (s : AccordionState)
    (hb : bodyOf d t = some b) (x : Nat) (hx : x ∈ accordionBodies d) (hxb : x ≠ b) :
    (toggleClickHandler d t b s).hidden x = true := by
  obtain ⟨o, ho, hob⟩ := (mem_accordionBodies d x).1 hx
  have hot : o ≠ t := by
    rintro rfl
    rw [hb] at hob
    exact hxb (Option.some.inj hob).symm
  rw [toggleClickHandler_hidden d t b s x hxb]
  exact collapseFold_hides d t d.toggles s o x ho hot hob

/-- A duplicate-free list whose members all equal one value has at most one
member. -/
theorem length_le_one_of_all_eq (l : List Nat) (b : Nat) (hnd : l.Nodup)
    (hall : ∀ x ∈ l, x = b) : l.length ≤ 1 := by
  match l, hnd, hall with
  | [], _, _ => simp
  | [_], _, _ => simp
  | x :: y :: l2, hnd, hall =>
    have hx : x = b := hall x (by simp)
    have hy : y = b := hall y (by simp)
    rw [List.nodup_cons] at hnd
    exact absurd (by rw [hx, hy]; simp) hnd.1

/-- After the listener of a pair ran, at most one body is unhidden. -/
theorem toggleClickHandler_unhiddenCount (d : AccordionDoc) (t b : Nat) (s : AccordionState)
    (hb : bodyOf d t = some b) : unhiddenCount d (toggleClickHandler d t b s) ≤ 1 := by
  unfold unhiddenCount
  apply length_le_one_of_all_eq _ b
  · exact List.Nodup.filter _ (List.nodup_dedup _)
  · intro x hx
    rw [List.mem_filter] at hx
    by_contra hxb
    have := toggleClickHandler_others_hidden d t b s hb x hx.1 hxb
    rw [this] at hx
    exact absurd hx.2 (by decide)

/-- A click keeps the number of unhidden bodies at most one. -/
theorem accordionClick_unhiddenCount (d : AccordionDoc) (s : AccordionState) (t : Nat)
    (h : unhiddenCount d s ≤ 1) : unhiddenCount d (accordionClick d s t) ≤ 1 := by
  unfold accordionClick
  split
  · split
    · rename_i b hb
      exact toggleClickHandler_unhiddenCount d t b s hb
    · exact h
  · exact h

/-- C3: after the click listener of the toggle of any pair has run, every
accordion body other than that of the clicked pair is hidden, so at most one
body is unhidden;
hence from a state with at most one unhidden body every sequence of clicks
keeps that number at most 1; and clicking closed pair B while pair A is open
leaves the body of A hidden with `aria-expanded="false"` and the body of B unhidden with
`aria-expanded="true"`. -/
theorem accordion_at_most_one_unhidden (d : AccordionDoc) :
    (∀ (s : AccordionState) (t b : Nat), t ∈ d.toggles → bodyOf d t = some b →
      (∀ x ∈ accordionBodies d, x ≠ b → (accordionClick d s t).hidden x = true) ∧
      unhiddenCount d (accordionClick d s t) ≤ 1) ∧
    (∀ (s : AccordionState) (clicks : List Nat), unhiddenCount d s ≤ 1 →
      unhiddenCount d (clicks.foldl (accordionClick d) s) ≤ 1) ∧
    (∀ (s : AccordionState) (a ba b bb : Nat), Paired d →
      a ∈ d.toggles → b ∈ d.toggles → bodyOf d a = some ba → bodyOf d b = some bb →
      s.hidden ba = false → s.ariaExpanded a = some "true" →
      s.hidden bb = true → s.ariaExpanded b ≠ some "true" →
      (accordionClick d s b).hidden ba = true ∧
      (accordionClick d s b).ariaExpanded a = some "false" ∧
      (accordionClick d s b).hidden bb = false ∧
      (accordionClick d s b).ariaExpanded b = some "true") := by
  refine ⟨?_, ?_, ?_⟩
  · intro s t b ht hb
    have e : accordionClick d s t = toggleClickHandler d t b s := by
      simp [accordionClick, ht, hb]
    rw [e]
    exact ⟨fun x hx hxb => toggleClickHandler_others_hidden d t b s hb x hx hxb,
      toggleClickHandler_unhiddenCount d t b s hb⟩
  · intro s clicks h
    induction clicks generalizing s with
    | nil => exact h
    | cons t clicks ih => exact ih _ (accordionClick_unhiddenCount d s t h)
  · intro s a ba b bb hp ha hbm hba hbb hAopen hAexp hBhid hBexp
    have hab : a ≠ b := by
      rintro rfl; exact hBexp hAexp
    have hbodies : ba ≠ bb := by
      rintro rfl; rw [hAopen] at hBhid; exact absurd hBhid (by decide)
    have e : accordionClick d s b = toggleClickHandler d b bb s := by
      simp [accordionClick, hbm, hbb]
    have hexp : (s.ariaExpanded b == some "true") = false := by
      cases h : (s.ariaExpanded b == some "true") with
      | true => exact absurd (by simpa using h) hBexp
      | false => rfl
    have hA : (d.toggles.foldl (collapseOther d b) s).ariaExpanded a = some "false" := by
      apply collapseFold_collapses d b d.toggles s a ba hab hba ha hAopen
      intro o ho _ hob
      exact hp o ho a ha (by rw [hob]; simp) (by rw [hob, hba])
    rw [e]
    refine ⟨?_, ?_, ?_, ?_⟩
    · rw [toggleClickHandler_hidden d b bb s ba hbodies]
      exact collapseFold_hides d b d.toggles s a ba ha hab hba
    · unfold toggleClickHandler
      simp only [hexp]
      show setAt _ b (some "true") a = some "false"
      rw [setAt_ne _ _ _ _ hab]; exact hA
    · unfold toggleClickHandler
      simp only [hexp]
      exact setAt_same _ _ _
    · unfold toggleClickHandler
      simp only [hexp]
      exact setAt_same _ _ _

/-- Witness for C3: on the page with two pairs, all closed, a click on A
(toggle 0, body 1) leaves the body of B hidden; three clicks keep at most one
body unhidden; and with A open and B (toggle 2, body 3) closed, a click on B
closes A and opens B. -/
theorem accordion_at_most_one_unhidden_witness :
    (accordionClick twoPairs allClosed 0).hidden 3 = true ∧
    unhiddenCount twoPairs ([0, 2, 0].foldl (accordionClick twoPairs) allClosed) ≤ 1 ∧
    (accordionClick twoPairs (accordionClick twoPairs allClosed 0) 2).hidden 1 = true ∧
    (accordionClick twoPairs (accordionClick twoPairs allClosed 0) 2).ariaExpanded 0
      = some "false" ∧
    (accordionClick twoPairs (accordionClick twoPairs allClosed 0) 2).hidden 3 = false ∧
    (accordionClick twoPairs (accordionClick twoPairs allClosed 0) 2).ariaExpanded 2
      = some "true" :=
  ⟨((accordion_at_most_one_unhidden twoPairs).1 allClosed 0 1 (by decide) (by decide)).1 3
      (by decide) (by decide),
    (accordion_at_most_one_unhidden twoPairs).2.1 allClosed [0, 2, 0] (by decide),
    (accordion_at_most_one_unhidden twoPairs).2.2 (accordionClick twoPairs allClosed 0)
      0 1 2 3 (by decide) (by decide) (by decide) (by decide) (by decide) (by decide)
      (by decide) (by decide) (by decide)⟩

/-- A turn of the collapsing loop removes `is-open` wherever it hides. -/
theorem collapseOther_open_unhidden (d : AccordionDoc) (t : Nat) (s : AccordionState) (o : Nat)
    (h : ∀ x, s.isOpen x = true → s.hidden x = false) :
    (∀ x, (collapseOther d t s o).isOpen x = true → (collapseOther d t s o).hidden x = false) ∧
    (collapseOther d t s o).pending = s.pending := by
  unfold collapseOther
  split
  · split
    · rename_i ob _
      split
      · refine ⟨?_, rfl⟩
        intro x hx
        by_cases hxo : x = ob
        · subst hxo
          have : setAt s.isOpen x false x = true := hx
          rw [setAt_same] at this
          exact absurd this (by decide)
        · have h1 : setAt s.isOpen ob false x = true := hx
          rw [setAt_ne _ _ _ _ hxo] at h1
          show setAt s.hidden ob true x = false
          rw [setAt_ne _ _ _ _ hxo]
          exact h x h1
      · exact ⟨h, rfl⟩
    · exact ⟨h, rfl⟩
  · exact ⟨h, rfl⟩

/-- The collapsing loop removes `is-open` wherever it hides. -/
theorem collapseFold_open_unhidden (d : AccordionDoc) (t : Nat) (l : List Nat)
    (s : AccordionState) (h : ∀ x, s.isOpen x = true → s.hidden x = false) :
    (∀ x, (l.foldl (collapseOther d t) s).isOpen x = true →
      (l.foldl (collapseOther d t) s).hidden x = false) ∧
    (l.foldl (collapseOther d t) s).pending = s.pending := by
  induction l generalizing s with
  | nil => exact ⟨h, rfl⟩
  | cons o l ih =>
    obtain ⟨h1, h2⟩ := collapseOther_open_unhidden d t s o h
    obtain ⟨h3, h4⟩ := ih _ h1
    exact ⟨h3, h4.trans h2⟩

/-- A click with nothing pending, followed by the frame, keeps `is-open` on
unhidden bodies only. -/
theorem settled_click_frame (d : AccordionDoc) (s : AccordionState) (t : Nat)
    (h : Settled s) : Settled (accordionFrame (accordionClick d s t)) := by
  obtain ⟨hp, hinv⟩ := h
  have hidle : Settled (accordionFrame s) := by
    refine ⟨rfl, ?_⟩
    intro x hx
    have : s.isOpen x = true := by simpa [accordionFrame, hp] using hx
    exact hinv x this
  unfold accordionClick
  split
  · split
    · rename_i b _
      obtain ⟨h1, h2⟩ := collapseFold_open_unhidden d t d.toggles s hinv
      rw [hp] at h2
      refine ⟨rfl, ?_⟩
      cases he : (s.ariaExpanded t == some "true") with
      | true =>
        have e : toggleClickHandler d t b s =
            { d.toggles.foldl (collapseOther d t) s with
              ariaExpanded :=
                setAt (d.toggles.foldl (collapseOther d t) s).ariaExpanded t (some "false")
              hidden := setAt (d.toggles.foldl (collapseOther d t) s).hidden b true
              isOpen := setAt (d.toggles.foldl (collapseOther d t) s).isOpen b false } := by
          simp [toggleClickHandler, he]
        rw [e]
        simp only [accordionFrame, h2, List.foldl_nil]
        intro x hx
        by_cases hxb : x = b
        · subst hxb
          rw [setAt_same] at hx
          exact absurd hx (by decide)
        · rw [setAt_ne _ _ _ _ hxb] at hx
          rw [setAt_ne _ _ _ _ hxb]
          exact h1 x hx
      | false =>
        have e : toggleClickHandler d t b s =
            { d.toggles.foldl (collapseOther d t) s with
              ariaExpanded :=
                setAt (d.toggles.foldl (collapseOther d t) s).ariaExpanded t (some "true")
              hidden := setAt (d.toggles.foldl (collapseOther d t) s).hidden b false
              pending := (d.toggles.foldl (collapseOther d t) s).pending ++ [b] } := by
          simp [toggleClickHandler, he]
        rw [e]
        simp only [accordionFrame, h2, List.nil_append, List.foldl_cons, List.foldl_nil]
        intro x hx
        by_cases hxb : x = b
        · subst hxb
          exact setAt_same _ _ _
        · rw [setAt_ne _ _ _ _ hxb] at hx
          rw [setAt_ne _ _ _ _ hxb]
          exact h1 x hx
    · exact hidle
  · exact hidle

/-- When a frame follows every click, every body carrying `is-open` is
unhidden throughout. -/
theorem settled_run (d : AccordionDoc) (s : AccordionState) (clicks : List Nat)
    (h : Settled s) : Settled (accordionRun d s (settledClicks clicks)) := by
  unfold accordionRun
  induction clicks generalizing s with
  | nil => exact h
  | cons t clicks ih =>
    simp only [settledClicks, List.foldl_cons, accordionStep]
    exact ih _ (settled_click_frame d s t h)

/-- C10, at the failing input: from the all-closed accordion, two clicks on
toggle 0 followed by the animation frame leave body 1 hidden and carrying
`is-open`; and a click on toggle 0, a click on toggle 2 and the frame leave
two bodies carrying `is-open`, one of them hidden. -/
theorem accordion_stale_frame_callback :
    (accordionRun twoPairs allClosed [.click 0, .click 0, .frame]).isOpen 1 = true ∧
    (accordionRun twoPairs allClosed [.click 0, .click 0, .frame]).hidden 1 = true ∧
    (accordionRun twoPairs allClosed [.click 0, .click 2, .frame]).isOpen 1 = true ∧
    (accordionRun twoPairs allClosed [.click 0, .click 2, .frame]).hidden 1 = true ∧
    openClassCount twoPairs (accordionRun twoPairs allClosed [.click 0, .click 2, .frame]) = 2 := by
  refine ⟨by decide, by decide, by decide, by decide, by decide⟩

/-! ## Scroll reveal -/

theorem revealEntry_visible_mono (s : RevealState) (entry : IntersectionEntry) (el : Nat)
    (h : s.visible el = true) : (revealEntry s entry).visible el = true := by
  unfold revealEntry
  split
  · show setAt s.visible entry.target true el = true
    by_cases he : el = entry.target
    · rw [he]; exact setAt_same _ _ _
    · rw [setAt_ne _ _ _ _ he]; exact h
  · exact h

theorem observerCallback_visible_mono (s : RevealState) (entries : List IntersectionEntry)
    (el : Nat) (h : s.visible el = true) : (observerCallback s entries).visible el = true := by
  unfold observerCallback
  induction entries generalizing s with
  | nil => exact h
  | cons e entries ih => exact ih _ (revealEntry_visible_mono s e el h)

theorem revealRun_visible_mono (s : RevealState) (notes : List (List IntersectionEntry))
    (el : Nat) (h : s.visible el = true) : (revealRun s notes).visible el = true := by
  unfold revealRun
  induction notes generalizing s with
  | nil => exact h
  | cons n notes ih => exact ih _ (observerCallback_visible_mono s n el h)

/-- The callback never starts observing anything. -/
theorem observerCallback_unobserved_mono (s : RevealState) (entries : List IntersectionEntry)
    (el : Nat) (h : s.observed el = false) : (observerCallback s entries).observed el = false := by
  unfold observerCallback
  induction entries generalizing s with
  | nil => exact h
  | cons e entries ih =>
    apply ih
    unfold revealEntry
    split
    · show setAt s.observed e.target false el = false
      by_cases he : el = e.target
      · rw [he]; exact setAt_same _ _ _
      · rw [setAt_ne _ _ _ _ he]; exact h
    · exact h

theorem revealRun_unobserved_mono (s : RevealState) (notes : List (List IntersectionEntry))
    (el : Nat) (h : s.observed el = false) : (revealRun s notes).observed el = false := by
  unfold revealRun
  induction notes generalizing s with
  | nil => exact h
  | cons n notes ih => exact ih _ (observerCallback_unobserved_mono s n el h)

/-- An element made visible by a notification has an intersecting entry in it
and is unobserved after it. -/
theorem observerCallback_gain (s : RevealState) (entries : List IntersectionEntry) (el : Nat)
    (h0 : s.visible el = false) (h1 : (observerCallback s entries).visible el = true) :
    (∃ entry ∈ entries, entry.target = el ∧ entry.isIntersecting = true) ∧
    (observerCallback s entries).observed el = false := by
  unfold observerCallback at h1 ⊢
  induction entries generalizing s with
  | nil => rw [List.foldl_nil] at h1; rw [h0] at h1; exact absurd h1 (by decide)
  | cons e entries ih =>
    rw [List.foldl_cons] at h1 ⊢
    by_cases hhit : e.target = el ∧ e.isIntersecting = true
    · refine ⟨⟨e, List.mem_cons_self _ _, hhit⟩, ?_⟩
      apply observerCallback_unobserved_mono
      unfold revealEntry
      rw [if_pos hhit.2, ← hhit.1]
      exact setAt_same _ _ _
    · have hstill : (revealEntry s e).visible el = false := by
        unfold revealEntry
        split
        · rename_i hi
          show setAt s.visible e.target true el = false
          rw [setAt_ne _ _ _ _ (fun h => hhit ⟨h.symm, hi⟩)]; exact h0
        · exact h0
      obtain ⟨⟨entry, hmem, hentry⟩, hobs⟩ := ih _ hstill h1
      exact ⟨⟨entry, List.mem_cons_of_mem _ hmem, hentry⟩, hobs⟩

theorem revealTransitions_of_visible (el : Nat) (s : RevealState)
    (notes : List (List IntersectionEntry)) (h : s.visible el = true) :
    revealTransitions el s notes = 0 := by
  induction notes generalizing s with
  | nil => rfl
  | cons n notes ih =>
    unfold revealTransitions
    rw [ih _ (observerCallback_visible_mono s n el h), h]
    simp

/-- C9: in the observing mode, over every sequence of intersection
notifications the set of elements carrying `is-visible` only grows; an element
gains `is-visible` only in a notification holding an intersecting entry for it;
from that notification on it is not observed; and it goes from not visible to
visible at most once. -/
theorem reveal_once (s : RevealState) (el : Nat) :
    (∀ notes : List (List IntersectionEntry),
      s.visible el = true → (revealRun s notes).visible el = true) ∧
    (∀ entries : List IntersectionEntry,
      s.visible el = false → (observerCallback s entries).visible el = true →
      (∃ entry ∈ entries, entry.target = el ∧ entry.isIntersecting = true) ∧
      ∀ later : List (List IntersectionEntry),
        (revealRun (observerCallback s entries) later).observed el = false) ∧
    (∀ notes : List (List IntersectionEntry), revealTransitions el s notes ≤ 1) := by
  refine ⟨fun notes h => revealRun_visible_mono s notes el h, ?_, ?_⟩
  · intro entries h0 h1
    obtain ⟨hentry, hobs⟩ := observerCallback_gain s entries el h0 h1
    exact ⟨hentry, fun later => revealRun_unobserved_mono _ later el hobs⟩
  · intro notes
    induction notes generalizing s with
    | nil => simp [revealTransitions]
    | cons n notes ih =>
      unfold revealTransitions
      by_cases hv : (observerCallback s n).visible el = true
      · rw [revealTransitions_of_visible el _ notes hv]
        split <;> simp
      · have := ih (observerCallback s n)
        simp only [hv, Bool.and_false, Bool.false_eq_true, if_false, Nat.zero_add]
        exact this

/-- Witness for C9: three observed elements, none visible; element 1 enters the
viewport in the first notification (which holds an intersecting entry for it,
and after which it is never observed), and stays visible when it leaves. -/
theorem reveal_once_witness :
    (revealRun (observerCallback (initScrollReveal false true [0, 1, 2] (fun _ => false))
      [⟨0, false⟩, ⟨1, true⟩]) [[⟨1, false⟩], [⟨2, true⟩]]).visible 1 = true ∧
    ((∃ entry ∈ [(⟨0, false⟩ : IntersectionEntry), ⟨1, true⟩],
      entry.target = 1 ∧ entry.isIntersecting = true) ∧
    ∀ later : List (List IntersectionEntry),
      (revealRun (observerCallback (initScrollReveal false true [0, 1, 2] (fun _ => false))
        [⟨0, false⟩, ⟨1, true⟩]) later).observed 1 = false) :=
  ⟨(reveal_once (observerCallback (initScrollReveal false true [0, 1, 2] (fun _ => false))
      [⟨0, false⟩, ⟨1, true⟩]) 1).1 [[⟨1, false⟩], [⟨2, true⟩]] (by decide),
    (reveal_once (initScrollReveal false true [0, 1, 2] (fun _ => false)) 1).2.1
      [⟨0, false⟩, ⟨1, true⟩] (by decide) (by decide)⟩

/-! ## Contact form: submission -/

/-- The validating loop, from any point of its run. -/
theorem validateAll_fold (nodes : List FormNode) (acc : List FormNode) (ok : Bool) :
    nodes.foldl
      (fun (acc : List FormNode × Bool) node =>
        match node with
        | .field field focusable =>
          let msg := validateField field
          (acc.1 ++ [FormNode.field (showError field msg) focusable],
            if msg != "" then false else acc.2)
        | .other isInvalid focusable =>
          (acc.1 ++ [FormNode.other isInvalid focusable], acc.2))
      (acc, ok) =
    (acc ++ nodes.map showNode,
      ok && (formFields nodes).all (fun f => validateField f == "")) := by
  induction nodes generalizing acc ok with
  | nil => simp [formFields]
  | cons node nodes ih =>
    rw [List.foldl_cons]
    cases node with
    | field f focusable =>
      simp only []
      rw [ih]
      by_cases hf : validateField f = ""
      · simp [hf, showNode, formFields]
      · simp [hf, showNode, formFields]
    | other isInvalid focusable =>
      simp only []
      rw [ih]
      simp [showNode, formFields]

/-- The validating loop shows each control its own result, leaves the other
elements alone, and reports whether all results were empty. -/
theorem validateAll_eq (nodes : List FormNode) :
    validateAll nodes =
      (nodes.map showNode, (formFields nodes).all (fun f => validateField f == "")) := by
  unfold validateAll
  rw [validateAll_fold]
  simp

/-- After the validating loop, when no element other than a control carries
`is-invalid`, the first element with that class is the first control whose
validation failed. -/
theorem querySelectorInvalid_shown (nodes : List FormNode)
    (h : ∃ f ∈ formFields nodes, validateField f ≠ "")
    (hstray : ∀ (c foc : Bool), FormNode.other c foc ∈ nodes → c = false) :
    ∃ (i : Nat) (f : Field) (foc : Bool),
      querySelectorInvalid (nodes.map showNode) = some i ∧
      nodes[i]? = some (FormNode.field f foc) ∧ validateField f ≠ "" ∧
      ∀ (j : Nat) (g : Field) (fg : Bool), j < i → nodes[j]? = some (FormNode.field g fg) →
        validateField g = "" := by
  induction nodes with
  | nil => obtain ⟨f, hf, _⟩ := h; cases hf
  | cons node nodes ih =>
    have hstray2 : ∀ (c foc : Bool), FormNode.other c foc ∈ nodes → c = false :=
      fun c foc hm => hstray c foc (List.mem_cons_of_mem _ hm)
    have hpass : hasInvalidClass (showNode node) = false →
        (∃ f ∈ formFields nodes, validateField f ≠ "") →
        (∀ (g : Field) (fg : Bool), node = FormNode.field g fg → validateField g = "") →
        ∃ (i : Nat) (f : Field) (foc : Bool),
          querySelectorInvalid ((node :: nodes).map showNode) = some i ∧
          (node :: nodes)[i]? = some (FormNode.field f foc) ∧ validateField f ≠ "" ∧
          ∀ (j : Nat) (g : Field) (fg : Bool), j < i →
            (node :: nodes)[j]? = some (FormNode.field g fg) → validateField g = "" := by
      intro hcls h2 hhead
      obtain ⟨i, f, foc, hq, hget, hbad, hbefore⟩ := ih h2 hstray2
      refine ⟨i + 1, f, foc, ?_, by simpa using hget, hbad, ?_⟩
      · rw [List.map_cons, querySelectorInvalid, hcls, hq]
        rfl
      · intro j g fg hj hg
        cases j with
        | zero =>
          simp only [List.getElem?_cons_zero, Option.some.injEq] at hg
          exact hhead g fg hg
        | succ j =>
          simp only [List.getElem?_cons_succ] at hg
          exact hbefore j g fg (by omega) hg
    cases node with
    | other c foc =>
      have hc : c = false := hstray c foc (List.mem_cons_self _ _)
      subst hc
      apply hpass rfl
      · obtain ⟨f, hf, hbad⟩ := h
        exact ⟨f, by simpa [formFields] using hf, hbad⟩
      · intro g fg hg; cases hg
    | field f0 foc0 =>
      by_cases h0 : validateField f0 = ""
      · apply hpass
        · simp [showNode, hasInvalidClass, showError, h0]
        · obtain ⟨f, hf, hbad⟩ := h
          simp only [formFields, List.mem_cons] at hf
          rcases hf with rfl | hf
          · exact absurd h0 hbad
          · exact ⟨f, hf, hbad⟩
        · intro g fg hg
          cases hg
          exact h0
      · refine ⟨0, f0, foc0, ?_, by simp, h0, ?_⟩
        · have hcls : hasInvalidClass (showNode (FormNode.field f0 foc0)) = true := by
            simp [showNode, hasInvalidClass, showError, h0]
          rw [List.map_cons, querySelectorInvalid, hcls]
          rfl
        · intro j g fg hj; omega

/-- A call of `focus()` changes nothing but the focus. -/
theorem focusElement_rest (s : FormState) (i : Nat) :
    (focusElement s i).nodes = s.nodes ∧
    (focusElement s i).successHidden = s.successHidden ∧
    (focusElement s i).successVisible = s.successVisible ∧
    (focusElement s i).frames = s.frames ∧
    (focusElement s i).timers = s.timers ∧
    (focusElement s i).now = s.now := by
  unfold focusElement
  split
  · split
    · exact ⟨rfl, rfl, rfl, rfl, rfl, rfl⟩
    · exact ⟨rfl, rfl, rfl, rfl, rfl, rfl⟩
  · exact ⟨rfl, rfl, rfl, rfl, rfl, rfl⟩

/-- The focus after a call of `focus()` on an element of the form. -/
theorem focusElement_focused (s : FormState) (i : Nat) (node : FormNode)
    (h : s.nodes[i]? = some node) :
    (focusElement s i).focused = if takesFocus node then some i else s.focused := by
  unfold focusElement
  rw [h]
  simp only []
  split <;> rfl

/-- The invalid branch of the submit listener. -/
theorem submit_of_invalid (s : FormState) (h : ∃ f ∈ formFields s.nodes, validateField f ≠ "") :
    submit s =
      match querySelectorInvalid (s.nodes.map showNode) with
      | some firstInvalid => focusElement { s with nodes := s.nodes.map showNode } firstInvalid
      | none => { s with nodes := s.nodes.map showNode } := by
  have hall : (formFields s.nodes).all (fun f => validateField f == "") = false := by
    rw [Bool.eq_false_iff]
    intro hall
    obtain ⟨f, hf, hbad⟩ := h
    rw [List.all_eq_true] at hall
    exact hbad (by simpa using hall f hf)
  unfold submit
  simp only [validateAll_eq, hall, Bool.not_false, if_true]

/-- The valid branch of the submit listener. -/
theorem submit_of_valid (s : FormState) (h : ∀ f ∈ formFields s.nodes, validateField f = "") :
    submit s =
      { s with
        nodes := (s.nodes.map showNode).map clearNode
        successHidden := false
        frames := s.frames ++ [FrameCallback.showSuccess]
        timers := s.timers ++ [(s.now + 6000, TimerCallback.fadeSuccess)] } := by
  have hall : (formFields s.nodes).all (fun f => validateField f == "") = true := by
    rw [List.all_eq_true]
    intro f hf
    simpa using h f hf
  unfold submit
  simp only [validateAll_eq, hall, Bool.not_true, Bool.false_eq_true, if_false]

/-- What the submit listener does when some control fails `validateField`:
every control keeps its value and shows its own result, the other elements,
the success message, the timers and the animation-frame callbacks are as
before.  When no element other than a control carries `is-invalid`, `focus()`
is called on the first control in document order whose validation failed, and
the focus moves there if that control can take it and stays where it was if it
cannot. -/
theorem submit_invalid_effects (s : FormState)
    (h : ∃ f ∈ formFields s.nodes, validateField f ≠ "") :
    (submit s).nodes = s.nodes.map showNode ∧
    (∀ (i : Nat) (f : Field) (foc : Bool), s.nodes[i]? = some (FormNode.field f foc) →
      ∃ g, (submit s).nodes[i]? = some (FormNode.field g foc) ∧
        g.value = f.value ∧ g.type = f.type ∧ g.tagName = f.tagName ∧
        (g.isInvalid = true ↔ validateField f ≠ "") ∧
        g.ariaInvalid = some (if validateField f = "" then "false" else "true") ∧
        g.errorText = f.errorText.map (fun _ => validateField f)) ∧
    (submit s).successHidden = s.successHidden ∧
    (submit s).successVisible = s.successVisible ∧
    (submit s).frames = s.frames ∧
    (submit s).timers = s.timers ∧
    ((∀ (c foc : Bool), FormNode.other c foc ∈ s.nodes → c = false) →
      ∃ (i : Nat) (f : Field) (foc : Bool),
        s.nodes[i]? = some (FormNode.field f foc) ∧ validateField f ≠ "" ∧
        (∀ (j : Nat) (g : Field) (fg : Bool), j < i →
          s.nodes[j]? = some (FormNode.field g fg) → validateField g = "") ∧
        (submit s).focused = if foc then some i else s.focused) := by
  have hs := submit_of_invalid s h
  have hrest : (submit s).nodes = s.nodes.map showNode ∧
      (submit s).successHidden = s.successHidden ∧
      (submit s).successVisible = s.successVisible ∧
      (submit s).frames = s.frames ∧ (submit s).timers = s.timers := by
    rw [hs]
    cases querySelectorInvalid (s.nodes.map showNode) with
    | none => exact ⟨rfl, rfl, rfl, rfl, rfl⟩
    | some i =>
      obtain ⟨h1, h2, h3, h4, h5, _⟩ :=
        focusElement_rest { s with nodes := s.nodes.map showNode } i
      exact ⟨h1, h2, h3, h4, h5⟩
  obtain ⟨hn, hh, hv, hf, ht⟩ := hrest
  refine ⟨hn, ?_, hh, hv, hf, ht, ?_⟩
  · intro k f foc hk
    rw [hn]
    refine ⟨showError f (validateField f), by simp [List.getElem?_map, hk, showNode], rfl, rfl,
      rfl, ?_, ?_, rfl⟩
    · simp [showError]
    · by_cases hv : validateField f = "" <;> simp [showError, hv]
  · intro hstray
    obtain ⟨i, f, foc, hq, hget, hbad, hbefore⟩ := querySelectorInvalid_shown s.nodes h hstray
    refine ⟨i, f, foc, hget, hbad, hbefore, ?_⟩
    rw [hs, hq]
    have hnode : ({ s with nodes := s.nodes.map showNode } : FormState).nodes[i]? =
        some (showNode (FormNode.field f foc)) := by
      simp [List.getElem?_map, hget]
    rw [focusElement_focused _ i _ hnode]
    rfl

/-- C4, at the failing input: in a form whose first control is an empty
`input type="hidden"`, followed by a filled text input, the hidden input fails
validation and is the first element carrying `is-invalid` after the validating
loop, so `focus()` is called on it; it cannot take focus, and the focus stays
where it was, outside the form, where the claim has it on the first failing
field.  With an empty text input in its place the focus does move there. -/
theorem submit_hidden_field_keeps_focus :
    validateField (hiddenInput "") = "This field is required." ∧
    querySelectorInvalid (submit hiddenFirstForm).nodes = some 0 ∧
    (submit hiddenFirstForm).focused = none ∧
    hiddenFirstForm.focused = none ∧
    (submit (formAtRest [textInput "", textInput "Ann"])).focused = some 0 := by
  refine ⟨by decide, by decide, by decide, by decide, by decide⟩

/-! ## Contact form: timers -/

theorem earliest_eq_none (ts : List (Nat × TimerCallback)) (h : earliest ts = none) : ts = [] := by
  cases ts with
  | nil => rfl
  | cons t rest =>
    unfold earliest at h
    split at h
    · cases h
    · split at h <;> cases h

theorem earliest_mem (ts : List (Nat × TimerCallback)) (t : Nat × TimerCallback)
    (h : earliest ts = some t) : t ∈ ts := by
  induction ts generalizing t with
  | nil => cases h
  | cons t0 rest ih =>
    unfold earliest at h
    split at h
    · cases h; exact List.mem_cons_self _ _
    · rename_i u hu
      split at h
      · cases h; exact List.mem_cons_self _ _
      · cases h; exact List.mem_cons_of_mem _ (ih _ hu)

theorem earliest_le (ts : List (Nat × TimerCallback)) (t : Nat × TimerCallback)
    (h : earliest ts = some t) : ∀ u ∈ ts, t.1 ≤ u.1 := by
  induction ts generalizing t with
  | nil => cases h
  | cons t0 rest ih =>
    intro u hu
    unfold earliest at h
    split at h
    · rename_i hnone
      cases h
      have := earliest_eq_none rest hnone
      subst this
      rcases List.mem_cons.1 hu with rfl | hu
      · exact Nat.le_refl _
      · cases hu
    · rename_i m hm
      have hmin := ih m hm
      split at h
      · rename_i hle
        cases h
        rcases List.mem_cons.1 hu with rfl | hu
        · exact Nat.le_refl _
        · exact Nat.le_trans hle (hmin u hu)
      · rename_i hlt
        cases h
        rcases List.mem_cons.1 hu with rfl | hu
        · omega
        · exact hmin u hu

theorem timerWeight_pos (cb : TimerCallback) : 1 ≤ timerWeight cb := by
  cases cb <;> simp [timerWeight]

theorem timersFuel_cons (t : Nat × TimerCallback) (ts : List (Nat × TimerCallback)) :
    timersFuel (t :: ts) = timerWeight t.2 + timersFuel ts := by
  simp [timersFuel]

theorem timersFuel_append (ts us : List (Nat × TimerCallback)) :
    timersFuel (ts ++ us) = timersFuel ts + timersFuel us := by
  simp [timersFuel]

theorem timersFuel_erase (ts : List (Nat × TimerCallback)) (t : Nat × TimerCallback)
    (h : t ∈ ts) : timersFuel (ts.erase t) + timerWeight t.2 = timersFuel ts := by
  induction ts with
  | nil => cases h
  | cons t0 rest ih =>
    by_cases e : t0 = t
    · subst e
      rw [List.erase_cons_head, timersFuel_cons]; omega
    · have hmem : t ∈ rest := by
        rcases List.mem_cons.1 h with h | h
        · exact absurd h.symm e
        · exact h
      rw [List.erase_cons_tail (by simpa using e), timersFuel_cons, timersFuel_cons]
      have := ih hmem
      omega

theorem timerWeight_le_fuel (ts : List (Nat × TimerCallback)) (t : Nat × TimerCallback)
    (h : t ∈ ts) : timerWeight t.2 ≤ timersFuel ts := by
  have := timersFuel_erase ts t h
  omega

/-- Each firing uses up one unit of the bound. -/
theorem fireTimer_fuel (s : FormState) (t : Nat × TimerCallback) (h : t ∈ s.timers) :
    timersFuel (fireTimer s t).timers + 1 = timersFuel s.timers := by
  have := timersFuel_erase s.timers t h
  obtain ⟨due, cb⟩ := t
  cases cb
  · simp only [fireTimer, runTimerCallback, timersFuel_append, timersFuel_cons, timerWeight] at *
    simp only [timersFuel, List.map_nil, List.sum_nil] at *
    omega
  · simp only [fireTimer, runTimerCallback, timerWeight] at *
    omega

theorem fireTimer_mem (s : FormState) (t u : Nat × TimerCallback) (hu : u ∈ s.timers)
    (hne : u ≠ t) : u ∈ (fireTimer s t).timers := by
  have h : u ∈ s.timers.erase t := (List.mem_erase_of_ne hne).2 hu
  obtain ⟨due, cb⟩ := t
  cases cb
  · simp only [fireTimer, runTimerCallback, List.mem_append]
    exact Or.inl h
  · simpa only [fireTimer, runTimerCallback] using h

theorem fireTimer_now (s : FormState) (t : Nat × TimerCallback) :
    (fireTimer s t).now = max s.now t.1 := by
  obtain ⟨due, cb⟩ := t
  cases cb <;> rfl

theorem fireTimer_visible_false (s : FormState) (t : Nat × TimerCallback)
    (h : s.successVisible = false) : (fireTimer s t).successVisible = false := by
  obtain ⟨due, cb⟩ := t
  cases cb
  · rfl
  · exact h

theorem fireTimer_hidden_true (s : FormState) (t : Nat × TimerCallback)
    (h : s.successHidden = true) : (fireTimer s t).successHidden = true := by
  obtain ⟨due, cb⟩ := t
  cases cb
  · exact h
  · rfl

theorem fireDue_zero (target : Nat) (s : FormState) : fireDue target 0 s = s := rfl

theorem fireDue_succ_due (target fuel : Nat) (s : FormState) (t : Nat × TimerCallback)
    (hE : earliest s.timers = some t) (hd : t.1 ≤ target) :
    fireDue target (fuel + 1) s = fireDue target fuel (fireTimer s t) := by
  rw [fireDue]; simp only [hE, hd, if_true]

theorem fireDue_succ_late (target fuel : Nat) (s : FormState) (t : Nat × TimerCallback)
    (hE : earliest s.timers = some t) (hd : ¬ t.1 ≤ target) :
    fireDue target (fuel + 1) s = s := by
  rw [fireDue]; simp only [hE, hd, if_false]

theorem fireDue_succ_none (target fuel : Nat) (s : FormState)
    (hE : earliest s.timers = none) : fireDue target (fuel + 1) s = s := by
  rw [fireDue]; simp only [hE]

/-- Firing timers never adds the visible class. -/
theorem fireDue_visible_false (target fuel : Nat) (s : FormState)
    (h : s.successVisible = false) : (fireDue target fuel s).successVisible = false := by
  induction fuel generalizing s with
  | zero => exact h
  | succ n ih =>
    cases hE : earliest s.timers with
    | none => rw [fireDue_succ_none _ _ _ hE]; exact h
    | some t =>
      by_cases hd : t.1 ≤ target
      · rw [fireDue_succ_due _ _ _ _ hE hd]; exact ih _ (fireTimer_visible_false s t h)
      · rw [fireDue_succ_late _ _ _ _ hE hd]; exact h

/-- Firing timers never unhides the message. -/
theorem fireDue_hidden_true (target fuel : Nat) (s : FormState)
    (h : s.successHidden = true) : (fireDue target fuel s).successHidden = true := by
  induction fuel generalizing s with
  | zero => exact h
  | succ n ih =>
    cases hE : earliest s.timers with
    | none => rw [fireDue_succ_none _ _ _ hE]; exact h
    | some t =>
      by_cases hd : t.1 ≤ target
      · rw [fireDue_succ_due _ _ _ _ hE hd]; exact ih _ (fireTimer_hidden_true s t h)
      · rw [fireDue_succ_late _ _ _ _ hE hd]; exact h

/-- A timer due after the target is still pending afterwards. -/
theorem fireDue_keeps_later (target fuel : Nat) (s : FormState) (u : Nat × TimerCallback)
    (hu : u ∈ s.timers) (hlate : target < u.1) : u ∈ (fireDue target fuel s).timers := by
  induction fuel generalizing s with
  | zero => exact hu
  | succ n ih =>
    cases hE : earliest s.timers with
    | none => rw [fireDue_succ_none _ _ _ hE]; exact hu
    | some t =>
      by_cases hd : t.1 ≤ target
      · rw [fireDue_succ_due _ _ _ _ hE hd]
        apply ih
        apply fireTimer_mem s t u hu
        rintro rfl
        omega
      · rw [fireDue_succ_late _ _ _ _ hE hd]; exact hu

/-- With fuel enough, no timer due by the target is left. -/
theorem fireDue_complete (target fuel : Nat) (s : FormState)
    (hfuel : timersFuel s.timers ≤ fuel) :
    ∀ u ∈ (fireDue target fuel s).timers, target < u.1 := by
  induction fuel generalizing s with
  | zero =>
    intro u hu
    have := timerWeight_le_fuel _ u hu
    have := timerWeight_pos u.2
    rw [fireDue_zero] at *
    omega
  | succ n ih =>
    cases hE : earliest s.timers with
    | none =>
      rw [fireDue_succ_none _ _ _ hE, earliest_eq_none _ hE]
      intro u hu; cases hu
    | some t =>
      by_cases hd : t.1 ≤ target
      · rw [fireDue_succ_due _ _ _ _ hE hd]
        apply ih
        have := fireTimer_fuel s t (earliest_mem _ _ hE)
        omega
      · rw [fireDue_succ_late _ _ _ _ hE hd]
        intro u hu
        have := earliest_le _ _ hE u hu
        omega

/-- A fade timer due by the target fires: the visible class is gone. -/
theorem fireDue_fade (target fuel : Nat) (s : FormState) (due : Nat)
    (hmem : (due, TimerCallback.fadeSuccess) ∈ s.timers) (hdue : due ≤ target)
    (hfuel : timersFuel s.timers ≤ fuel) : (fireDue target fuel s).successVisible = false := by
  induction fuel generalizing s with
  | zero =>
    have := timerWeight_le_fuel _ _ hmem
    simp only [timerWeight] at this
    omega
  | succ n ih =>
    cases hE : earliest s.timers with
    | none => rw [earliest_eq_none _ hE] at hmem; cases hmem
    | some t =>
      have hle : t.1 ≤ due := earliest_le _ _ hE _ hmem
      rw [fireDue_succ_due _ _ _ _ hE (Nat.le_trans hle hdue)]
      have hf := fireTimer_fuel s t (earliest_mem _ _ hE)
      by_cases ht : (due, TimerCallback.fadeSuccess) = t
      · subst ht
        exact fireDue_visible_false _ _ _ rfl
      · exact ih _ (fireTimer_mem s t _ hmem ht) (by omega)

/-- A hide timer due by the target fires: the message is hidden. -/
theorem fireDue_hide (target fuel : Nat) (s : FormState) (due : Nat)
    (hmem : (due, TimerCallback.hideSuccess) ∈ s.timers) (hdue : due ≤ target)
    (hfuel : timersFuel s.timers ≤ fuel) : (fireDue target fuel s).successHidden = true := by
  induction fuel generalizing s with
  | zero =>
    have := timerWeight_le_fuel _ _ hmem
    simp only [timerWeight] at this
    omega
  | succ n ih =>
    cases hE : earliest s.timers with
    | none => rw [earliest_eq_none _ hE] at hmem; cases hmem
    | some t =>
      have hle : t.1 ≤ due := earliest_le _ _ hE _ hmem
      rw [fireDue_succ_due _ _ _ _ hE (Nat.le_trans hle hdue)]
      have hf := fireTimer_fuel s t (earliest_mem _ _ hE)
      by_cases ht : (due, TimerCallback.hideSuccess) = t
      · subst ht
        exact fireDue_hidden_true _ _ _ rfl
      · exact ih _ (fireTimer_mem s t _ hmem ht) (by omega)

/-- The hide timer set by a fade timer that fires on time. -/
theorem fireTimer_fade_sets_hide (s : FormState) (due : Nat) (hnow : s.now ≤ due) :
    (due + 300, TimerCallback.hideSuccess) ∈
      (fireTimer s (due, TimerCallback.fadeSuccess)).timers := by
  simp only [fireTimer, runTimerCallback, List.mem_append, List.mem_singleton]
  right
  rw [Nat.max_eq_right hnow]

/-- A fade timer due 300 or more before the target: the message ends hidden. -/
theorem fireDue_fade_then_hide (target fuel : Nat) (s : FormState) (due : Nat)
    (hmem : (due, TimerCallback.fadeSuccess) ∈ s.timers) (hnow : s.now ≤ due)
    (hdue : due + 300 ≤ target) (hfuel : timersFuel s.timers ≤ fuel) :
    (fireDue target fuel s).successHidden = true := by
  induction fuel generalizing s with
  | zero =>
    have := timerWeight_le_fuel _ _ hmem
    simp only [timerWeight] at this
    omega
  | succ n ih =>
    cases hE : earliest s.timers with
    | none => rw [earliest_eq_none _ hE] at hmem; cases hmem
    | some t =>
      have hle : t.1 ≤ due := earliest_le _ _ hE _ hmem
      rw [fireDue_succ_due _ _ _ _ hE (by omega)]
      have hf := fireTimer_fuel s t (earliest_mem _ _ hE)
      by_cases ht : (due, TimerCallback.fadeSuccess) = t
      · subst ht
        exact fireDue_hide target n _ (due + 300) (fireTimer_fade_sets_hide s due hnow) hdue
          (by omega)
      · refine ih _ (fireTimer_mem s t _ hmem ht) ?_ (by omega)
        rw [fireTimer_now]
        exact Nat.max_le.2 ⟨hnow, hle⟩

/-- A fade timer due less than 300 before the target: its hide timer is
pending afterwards. -/
theorem fireDue_fade_pending_hide (target fuel : Nat) (s : FormState) (due : Nat)
    (hmem : (due, TimerCallback.fadeSuccess) ∈ s.timers) (hnow : s.now ≤ due)
    (hdue : due ≤ target) (hlate : target < due + 300) (hfuel : timersFuel s.timers ≤ fuel) :
    (due + 300, TimerCallback.hideSuccess) ∈ (fireDue target fuel s).timers := by
  induction fuel generalizing s with
  | zero =>
    have := timerWeight_le_fuel _ _ hmem
    simp only [timerWeight] at this
    omega
  | succ n ih =>
    cases hE : earliest s.timers with
    | none => rw [earliest_eq_none _ hE] at hmem; cases hmem
    | some t =>
      have hle : t.1 ≤ due := earliest_le _ _ hE _ hmem
      rw [fireDue_succ_due _ _ _ _ hE (by omega)]
      have hf := fireTimer_fuel s t (earliest_mem _ _ hE)
      by_cases ht : (due, TimerCallback.fadeSuccess) = t
      · subst ht
        exact fireDue_keeps_later target n _ _ (fireTimer_fade_sets_hide s due hnow) hlate
      · refine ih _ (fireTimer_mem s t _ hmem ht) ?_ (by omega)
        rw [fireTimer_now]
        exact Nat.max_le.2 ⟨hnow, hle⟩

/-! ## Contact form: after a valid submission -/

theorem runFrames_timers (frames : List FrameCallback) (s : FormState) :
    (frames.foldl runFrameCallback s).timers = s.timers ∧
    (frames.foldl runFrameCallback s).now = s.now ∧
    (frames.foldl runFrameCallback s).successHidden = s.successHidden ∧
    (frames.foldl runFrameCallback s).frames = s.frames ∧
    (s.successVisible = true → (frames.foldl runFrameCallback s).successVisible = true) ∧
    (frames ≠ [] → (frames.foldl runFrameCallback s).successVisible = true) := by
  induction frames generalizing s with
  | nil => simp
  | cons cb frames ih =>
    cases cb
    obtain ⟨h1, h2, h3, h4, h5, _⟩ := ih (runFrameCallback s FrameCallback.showSuccess)
    rw [List.foldl_cons]
    exact ⟨h1, h2, h3, h4, fun _ => h5 rfl, fun _ => h5 rfl⟩

theorem formFrame_timers (s : FormState) : (formFrame s).timers = s.timers :=
  (runFrames_timers s.frames _).1

theorem formFrame_now (s : FormState) : (formFrame s).now = s.now :=
  (runFrames_timers s.frames _).2.1

theorem formFrame_hidden (s : FormState) : (formFrame s).successHidden = s.successHidden :=
  (runFrames_timers s.frames _).2.2.1

theorem formFrame_frames (s : FormState) : (formFrame s).frames = [] :=
  (runFrames_timers s.frames _).2.2.2.1

theorem formFrame_visible (s : FormState) (h : s.frames ≠ [] ∨ s.successVisible = true) :
    (formFrame s).successVisible = true := by
  rcases h with h | h
  · exact (runFrames_timers s.frames _).2.2.2.2.2 h
  · exact (runFrames_timers s.frames _).2.2.2.2.1 h

/-- Nothing fires while every timer is due after the target. -/
theorem fireDue_idle (target fuel : Nat) (s : FormState)
    (h : ∀ u ∈ s.timers, target < u.1) : fireDue target fuel s = s := by
  cases fuel with
  | zero => rfl
  | succ n =>
    cases hE : earliest s.timers with
    | none => exact fireDue_succ_none _ _ _ hE
    | some t =>
      have := h t (earliest_mem _ _ hE)
      exact fireDue_succ_late _ _ _ _ hE (by omega)

theorem successPhase_wait (t0 : Nat) (st : FormState) (e d : Nat)
    (h : SuccessPhase t0 st e) : SuccessPhase t0 (formWait d st) (e + d) := by
  obtain ⟨hnow, hphase⟩ := h
  refine ⟨by show st.now + d = t0 + (e + d); omega, ?_⟩
  rcases hphase with ⟨he, hmem⟩ | ⟨he1, he2, hmem⟩ | ⟨he, hhid⟩
  · by_cases h1 : e + d < 6000
    · left
      exact ⟨h1, fireDue_keeps_later _ _ _ _ hmem (by show st.now + d < t0 + 6000; omega)⟩
    · by_cases h2 : e + d < 6300
      · right; left
        refine ⟨by omega, h2, ?_⟩
        have := fireDue_fade_pending_hide (st.now + d) (timersFuel st.timers) st (t0 + 6000)
          hmem (by omega) (by omega) (by omega) (Nat.le_refl _)
        exact this
      · right; right
        refine ⟨by omega, ?_⟩
        exact fireDue_fade_then_hide (st.now + d) (timersFuel st.timers) st (t0 + 6000)
          hmem (by omega) (by omega) (Nat.le_refl _)
  · by_cases h2 : e + d < 6300
    · right; left
      exact ⟨by omega, h2,
        fireDue_keeps_later _ _ _ _ hmem (by show st.now + d < t0 + 6300; omega)⟩
    · right; right
      refine ⟨by omega, ?_⟩
      exact fireDue_hide (st.now + d) (timersFuel st.timers) st (t0 + 6300) hmem (by omega)
        (Nat.le_refl _)
  · right; right
    exact ⟨by omega, fireDue_hidden_true _ _ _ hhid⟩

theorem successPhase_frame (t0 : Nat) (st : FormState) (e : Nat)
    (h : SuccessPhase t0 st e) : SuccessPhase t0 (formFrame st) e := by
  unfold SuccessPhase at *
  rw [formFrame_timers, formFrame_now, formFrame_hidden]
  exact h

theorem successPhase_run (t0 : Nat) (st : FormState) (e : Nat) (evs : List FormEvent)
    (h : SuccessPhase t0 st e) : SuccessPhase t0 (formRun st evs) (e + elapsed evs) := by
  unfold formRun
  induction evs generalizing st e with
  | nil => simpa [elapsed] using h
  | cons ev evs ih =>
    cases ev with
    | frame =>
      rw [List.foldl_cons]
      simpa [elapsed] using ih _ _ (successPhase_frame t0 st e h)
    | wait d =>
      rw [List.foldl_cons]
      have := ih _ _ (successPhase_wait t0 st e d h)
      simpa [elapsed, Nat.add_assoc] using this

theorem successPhase_submit (s : FormState)
    (h : ∀ f ∈ formFields s.nodes, validateField f = "") :
    SuccessPhase s.now (submit s) 0 := by
  rw [submit_of_valid s h]
  exact ⟨rfl, Or.inl ⟨by decide, by simp⟩⟩

theorem freshPhase_wait (t0 : Nat) (st : FormState) (e d : Nat)
    (h : FreshPhase t0 st e) :
    FreshPhase t0 (formWait d st) (e + d) ∧
    (e + d < 6000 → (formWait d st).successVisible = st.successVisible) := by
  obtain ⟨hnow, hphase⟩ := h
  have hnow2 : (formWait d st).now = t0 + (e + d) := by
    show st.now + d = t0 + (e + d); omega
  rcases hphase with ⟨he, htim, hhid, hvis⟩ | ⟨he1, he2, htim, hhid⟩ | he
  · by_cases h1 : e + d < 6000
    · have hidle : fireDue (st.now + d) (timersFuel st.timers) st = st := by
        apply fireDue_idle
        intro u hu
        rw [htim, List.mem_singleton] at hu
        subst hu
        show st.now + d < t0 + 6000
        omega
      have hw : formWait d st = { st with now := st.now + d } := by
        unfold formWait; rw [hidle]
      rw [hw]
      exact ⟨⟨hnow2, Or.inl ⟨h1, htim, hhid, hvis⟩⟩, fun _ => rfl⟩
    · refine ⟨⟨hnow2, ?_⟩, fun h => absurd h h1⟩
      by_cases h2 : e + d < 6300
      · right; left
        have hfuel : timersFuel st.timers = 1 + 1 := by rw [htim]; rfl
        have hE : earliest st.timers = some (t0 + 6000, TimerCallback.fadeSuccess) := by
          rw [htim]; rfl
        have hfire : fireTimer st (t0 + 6000, TimerCallback.fadeSuccess) =
            { st with
              successVisible := false
              timers := [(t0 + 6300, TimerCallback.hideSuccess)]
              now := t0 + 6000 } := by
          have hm : max st.now (t0 + 6000) = t0 + 6000 := Nat.max_eq_right (by omega)
          simp only [fireTimer, runTimerCallback, htim, hm, List.erase_cons_head,
            List.nil_append]
        have hidle : fireDue (st.now + d) 1 (fireTimer st (t0 + 6000, TimerCallback.fadeSuccess))
            = fireTimer st (t0 + 6000, TimerCallback.fadeSuccess) := by
          apply fireDue_idle
          intro u hu
          rw [hfire] at hu
          simp only [List.mem_singleton] at hu
          subst hu
          show st.now + d < t0 + 6300
          omega
        have hw : fireDue (st.now + d) (timersFuel st.timers) st =
            fireTimer st (t0 + 6000, TimerCallback.fadeSuccess) := by
          rw [hfuel, fireDue_succ_due _ _ _ _ hE (by show t0 + 6000 ≤ st.now + d; omega), hidle]
        refine ⟨by omega, h2, ?_, ?_⟩
        · show (fireDue (st.now + d) (timersFuel st.timers) st).timers = _
          rw [hw, hfire]
        · show (fireDue (st.now + d) (timersFuel st.timers) st).successHidden = false
          rw [hw, hfire]; exact hhid
      · right; right; omega
  · refine ⟨⟨hnow2, ?_⟩, fun h => by omega⟩
    by_cases h2 : e + d < 6300
    · right; left
      have hidle : fireDue (st.now + d) (timersFuel st.timers) st = st := by
        apply fireDue_idle
        intro u hu
        rw [htim, List.mem_singleton] at hu
        subst hu
        show st.now + d < t0 + 6300
        omega
      refine ⟨by omega, h2, ?_, ?_⟩
      · show (fireDue (st.now + d) (timersFuel st.timers) st).timers = _
        rw [hidle]; exact htim
      · show (fireDue (st.now + d) (timersFuel st.timers) st).successHidden = false
        rw [hidle]; exact hhid
    · right; right; omega
  · exact ⟨⟨hnow2, Or.inr (Or.inr (by omega))⟩, fun h => by omega⟩

theorem freshPhase_frame (t0 : Nat) (st : FormState) (e : Nat) (h : FreshPhase t0 st e) :
    FreshPhase t0 (formFrame st) e ∧
    (e < 6000 → (formFrame st).successVisible = true) := by
  obtain ⟨hnow, hphase⟩ := h
  rcases hphase with ⟨he, htim, hhid, hvis⟩ | ⟨he1, he2, htim, hhid⟩ | he
  · have hv := formFrame_visible st hvis
    refine ⟨⟨by rw [formFrame_now]; exact hnow, Or.inl ⟨he, ?_, ?_, Or.inr hv⟩⟩, fun _ => hv⟩
    · rw [formFrame_timers]; exact htim
    · rw [formFrame_hidden]; exact hhid
  · refine ⟨⟨by rw [formFrame_now]; exact hnow, Or.inr (Or.inl ⟨he1, he2, ?_, ?_⟩)⟩,
      fun h => by omega⟩
    · rw [formFrame_timers]; exact htim
    · rw [formFrame_hidden]; exact hhid
  · exact ⟨⟨by rw [formFrame_now]; exact hnow, Or.inr (Or.inr he)⟩, fun h => by omega⟩

theorem freshPhase_run (t0 : Nat) (st : FormState) (e : Nat) (evs : List FormEvent)
    (h : FreshPhase t0 st e) : FreshPhase t0 (formRun st evs) (e + elapsed evs) := by
  unfold formRun
  induction evs generalizing st e with
  | nil => simpa [elapsed] using h
  | cons ev evs ih =>
    cases ev with
    | frame =>
      rw [List.foldl_cons]
      simpa [elapsed] using ih _ _ (freshPhase_frame t0 st e h).1
    | wait d =>
      rw [List.foldl_cons]
      have := ih _ _ (freshPhase_wait t0 st e d h).1
      simpa [elapsed, Nat.add_assoc] using this

/-- Once shown, the message keeps its visible class until the fade timer. -/
theorem freshPhase_stays_visible (t0 : Nat) (st : FormState) (e : Nat) (evs : List FormEvent)
    (h : FreshPhase t0 st e) (hv : st.successVisible = true) (hlt : e + elapsed evs < 6000) :
    (formRun st evs).successVisible = true := by
  unfold formRun
  induction evs generalizing st e with
  | nil => exact hv
  | cons ev evs ih =>
    cases ev with
    | frame =>
      rw [List.foldl_cons]
      have hf := freshPhase_frame t0 st e h
      simp only [elapsed] at hlt
      exact ih _ e hf.1 (hf.2 (by omega)) hlt
    | wait d =>
      rw [List.foldl_cons]
      have hw := freshPhase_wait t0 st e d h
      simp only [elapsed] at hlt
      refine ih _ (e + d) hw.1 ?_ (by omega)
      show (formWait d st).successVisible = true
      rw [hw.2 (by omega)]; exact hv

theorem freshPhase_submit (s : FormState)
    (h : ∀ f ∈ formFields s.nodes, validateField f = "")
    (hfresh : s.timers = []) : FreshPhase s.now (submit s) 0 := by
  rw [submit_of_valid s h]
  refine ⟨rfl, Or.inl ⟨by decide, ?_, rfl, Or.inl ?_⟩⟩
  · simp [hfresh]
  · simp

theorem fireTimer_frames (s : FormState) (t : Nat × TimerCallback) :
    (fireTimer s t).frames = s.frames := by
  obtain ⟨due, cb⟩ := t
  cases cb <;> rfl

theorem fireDue_frames (target fuel : Nat) (s : FormState) :
    (fireDue target fuel s).frames = s.frames := by
  induction fuel generalizing s with
  | zero => rfl
  | succ n ih =>
    cases hE : earliest s.timers with
    | none => rw [fireDue_succ_none _ _ _ hE]
    | some t =>
      by_cases hd : t.1 ≤ target
      · rw [fireDue_succ_due _ _ _ _ hE hd, ih, fireTimer_frames]
      · rw [fireDue_succ_late _ _ _ _ hE hd]

/-- With no frame callback pending, the visible class is absent from the fade
timer on. -/
theorem faded_run (t0 : Nat) (st : FormState) (e : Nat) (evs : List FormEvent)
    (hf : st.frames = []) (hp : SuccessPhase t0 st e)
    (hv : 6000 ≤ e → st.successVisible = false) (hlate : 6000 ≤ e + elapsed evs) :
    (formRun st evs).successVisible = false := by
  unfold formRun
  induction evs generalizing st e with
  | nil => exact hv (by simpa [elapsed] using hlate)
  | cons ev evs ih =>
    rw [List.foldl_cons]
    cases ev with
    | frame =>
      have hid : formFrame st = st := by
        unfold formFrame
        rw [hf]
        simp only [List.foldl_nil]
        cases st
        simp only at hf
        rw [hf]
      show (List.foldl formStep (formFrame st) evs).successVisible = false
      rw [hid]
      exact ih st e hf hp hv (by simpa [elapsed] using hlate)
    | wait d =>
      show (List.foldl formStep (formWait d st) evs).successVisible = false
      refine ih (formWait d st) (e + d) ?_ (successPhase_wait t0 st e d hp) ?_
        (by simp only [elapsed] at hlate; omega)
      · show (fireDue (st.now + d) (timersFuel st.timers) st).frames = []
        rw [fireDue_frames]; exact hf
      · intro h6
        show (fireDue (st.now + d) (timersFuel st.timers) st).successVisible = false
        by_cases he : 6000 ≤ e
        · exact fireDue_visible_false _ _ _ (hv he)
        · obtain ⟨hnow, hph⟩ := hp
          rcases hph with ⟨_, hmem⟩ | ⟨h, _⟩ | ⟨h, _⟩
          · exact fireDue_fade _ _ _ (t0 + 6000) hmem (by omega) (Nat.le_refl _)
          · omega
          · omega

theorem elapsed_append (evs1 evs2 : List FormEvent) :
    elapsed (evs1 ++ evs2) = elapsed evs1 + elapsed evs2 := by
  induction evs1 with
  | nil => simp [elapsed]
  | cons ev evs1 ih =>
    cases ev with
    | frame => simpa [elapsed] using ih
    | wait d => simp [elapsed, ih, Nat.add_assoc]

/-- What follows a submission in which every control passes `validateField`:
every control is left with an empty value, without the class `is-invalid`,
with `aria-invalid="false"` and with empty error text, and the success message
is unhidden.  With no further submission, whatever frames and waits follow:
the wait that reaches 6000 time units ends with the visible class removed,
from 6300 time units on the message is hidden, and when a frame ran before
6000 the visible class is absent from 6000 on.  When no timer was pending at
the submission, the message stays unhidden before 6300, and once a frame has
shown it, it keeps the visible class before 6000. -/
theorem submit_valid_effects (s : FormState)
    (h : ∀ f ∈ formFields s.nodes, validateField f = "") :
    (submit s).nodes.length = s.nodes.length ∧
    (∀ (i : Nat) (f : Field) (foc : Bool), s.nodes[i]? = some (FormNode.field f foc) →
      ∃ g, (submit s).nodes[i]? = some (FormNode.field g foc) ∧
        g.value = [] ∧ g.type = f.type ∧ g.tagName = f.tagName ∧
        g.isInvalid = false ∧ g.ariaInvalid = some "false" ∧
        g.errorText = f.errorText.map (fun _ => "")) ∧
    (submit s).successHidden = false ∧
    (∀ (evs : List FormEvent) (d : Nat), elapsed evs < 6000 → 6000 ≤ elapsed evs + d →
      (formWait d (formRun (submit s) evs)).successVisible = false) ∧
    (∀ evs : List FormEvent, 6300 ≤ elapsed evs →
      (formRun (submit s) evs).successHidden = true) ∧
    (∀ evs1 evs2 : List FormEvent, elapsed evs1 < 6000 →
      6000 ≤ elapsed evs1 + elapsed evs2 →
      (formRun (submit s) (evs1 ++ FormEvent.frame :: evs2)).successVisible = false) ∧
    (s.timers = [] →
      (∀ evs : List FormEvent, elapsed evs < 6300 →
        (formRun (submit s) evs).successHidden = false) ∧
      (∀ evs1 evs2 : List FormEvent, elapsed evs1 + elapsed evs2 < 6000 →
        (formRun (submit s) (evs1 ++ FormEvent.frame :: evs2)).successVisible = true)) := by
  have hphase := successPhase_submit s h
  refine ⟨?_, ?_, ?_, ?_, ?_, ?_, ?_⟩
  · rw [submit_of_valid s h]; simp
  · intro i f foc hi
    rw [submit_of_valid s h]
    refine ⟨clearError { showError f (validateField f) with value := [] }, ?_, rfl, rfl, rfl,
      rfl, rfl, ?_⟩
    · simp [List.getElem?_map, hi, showNode, clearNode]
    · cases he : f.errorText <;> simp [clearError, showError, he]
  · rw [submit_of_valid s h]
  · intro evs d h1 h2
    obtain ⟨hnow, hp⟩ := successPhase_run s.now _ 0 evs hphase
    rw [Nat.zero_add] at hnow hp
    rcases hp with ⟨_, hmem⟩ | ⟨h6, _⟩ | ⟨h6, _⟩
    · exact fireDue_fade _ _ _ (s.now + 6000) hmem (by omega) (Nat.le_refl _)
    · omega
    · omega
  · intro evs h1
    obtain ⟨_, hp⟩ := successPhase_run s.now _ 0 evs hphase
    rw [Nat.zero_add] at hp
    rcases hp with ⟨h6, _⟩ | ⟨_, h6, _⟩ | ⟨_, hhid⟩
    · omega
    · omega
    · exact hhid
  · intro evs1 evs2 h1 h2
    have hp1 := successPhase_run s.now _ 0 evs1 hphase
    rw [Nat.zero_add] at hp1
    have hsplit : formRun (submit s) (evs1 ++ FormEvent.frame :: evs2) =
        formRun (formFrame (formRun (submit s) evs1)) evs2 := by
      simp [formRun, List.foldl_append, formStep]
    rw [hsplit]
    exact faded_run s.now _ (elapsed evs1) evs2 (formFrame_frames _)
      (successPhase_frame _ _ _ hp1) (fun h6 => by omega) h2
  · intro hfresh
    have hfr := freshPhase_submit s h hfresh
    constructor
    · intro evs h1
      obtain ⟨_, hp⟩ := freshPhase_run s.now _ 0 evs hfr
      rw [Nat.zero_add] at hp
      rcases hp with ⟨_, _, hhid, _⟩ | ⟨_, _, _, hhid⟩ | h6
      · exact hhid
      · exact hhid
      · omega
    · intro evs1 evs2 hlt
      have h1 := freshPhase_run s.now _ 0 evs1 hfr
      rw [Nat.zero_add] at h1
      have hf := freshPhase_frame s.now _ _ h1
      have : formRun (submit s) (evs1 ++ FormEvent.frame :: evs2) =
          formRun (formFrame (formRun (submit s) evs1)) evs2 := by
        simp [formRun, List.foldl_append, formStep]
      rw [this]
      exact freshPhase_stays_visible s.now _ (elapsed evs1) evs2 hf.1 (hf.2 (by omega)) hlt

/-- C5, at the failing input: a form whose controls all pass is submitted, and
the first animation frame comes only after 6000 time units.  The fade timer
has then already run, the callback of the frame adds the visible class all the
same, and after a further 300 time units the message is hidden and still
carries the class, where the claim has the class lost after 6000 time units.
When the frame comes before the timer the class is removed and the message is
hidden. -/
theorem submit_late_frame_keeps_visible_class :
    (∀ f ∈ formFields validForm.nodes, validateField f = "") ∧
    (submit validForm).successHidden = false ∧
    (formRun (submit validForm) [FormEvent.wait 6000]).successVisible = false ∧
    (formRun (submit validForm) [FormEvent.wait 6000, FormEvent.frame]).successVisible = true ∧
    (formRun (submit validForm)
      [FormEvent.wait 6000, FormEvent.frame, FormEvent.wait 300]).successVisible = true ∧
    (formRun (submit validForm)
      [FormEvent.wait 6000, FormEvent.frame, FormEvent.wait 300]).successHidden = true ∧
    (formRun (submit validForm)
      [FormEvent.wait 6000, FormEvent.frame, FormEvent.wait 300, FormEvent.wait 100000,
        FormEvent.frame]).successVisible = true ∧
    (formRun (submit validForm)
      [FormEvent.frame, FormEvent.wait 6000, FormEvent.wait 300]).successVisible = false ∧
    (formRun (submit validForm)
      [FormEvent.frame, FormEvent.wait 6000, FormEvent.wait 300]).successHidden = true := by
  refine ⟨by decide, by decide, ?_⟩
  decide

end Naensomt
